import Mathlib

/-!
# Spreadsheet core: formula evaluation and cell storage

A shallow embedding of `src/spreadsheet/formula.cpp` and `src/spreadsheet/sheet.cpp`.

* C++ exceptions are the `Except.error` side of `Except Fault _`.
* `int` is `Int`: the only arithmetic is `row + 1` / `col + 1` on keys of the cell
  mapping, which are valid positions and therefore below the grid bounds.
* `double` is kept as an uninterpreted 64-bit pattern; the embedded code performs no
  arithmetic on doubles, it only passes them along.
* `std::string` is `String`; the stream extraction works on its character list.
* `cells_` (a hash map from positions to owning pointers) is an association list
  with first-match lookup; a null owning pointer is `none`.
-/

namespace Spreadsheet

/-! ## Data model -/

/-- Modelled from the spec: Position, an integer (row, column) pair (`common.h` is not
among the sources). -/
structure Position where
  row : Int
  col : Int
deriving DecidableEq, Repr

/-- Modelled from the spec: the grid bounds against which a position is validated.
The sources use `Position::IsValid` without its bounds; they are parameters here. -/
structure Bounds where
  MAX_ROWS : Int
  MAX_COLS : Int

/-- Modelled from the spec: the validity predicate of a zero-based position with a
bounded valid range (`Position::IsValid` is declared outside the sources). -/
def Position.IsValid (b : Bounds) (p : Position) : Bool :=
  decide (0 ≤ p.row) && decide (0 ≤ p.col) &&
    decide (p.row < b.MAX_ROWS) && decide (p.col < b.MAX_COLS)

/-- A double-precision number, as its IEEE-754 bit pattern. -/
structure Double where
  bits : Nat
deriving DecidableEq, Repr

/-- The double `0` (positive zero), as in `return 0;` and `double result = 0;`. -/
def Double.zero : Double := ⟨0⟩

/-- Categories of `FormulaError`. -/
inductive Category where
  | Ref
  | Value
  | Div0
deriving DecidableEq, Repr

/-- The class `FormulaError`: its only member is `category_`. -/
structure FormulaError where
  category_ : Category
deriving DecidableEq, Repr

/-- `FormulaError::GetCategory`. -/
def FormulaError.GetCategory (e : FormulaError) : Category := e.category_

/-- `FormulaError::operator==` (lines 135-137). -/
def FormulaError.operator_eq (e rhs : FormulaError) : Bool :=
  decide (e.category_ = rhs.category_)

/-- `FormulaError::ToString` (lines 139-149). The `return ""` after the switch is for a
category outside the enumeration, which the type `Category` does not have. -/
def FormulaError.ToString (e : FormulaError) : String :=
  match e.category_ with
  | Category.Ref => "#REF!"
  | Category.Value => "#VALUE!"
  | Category.Div0 => "#DIV/0!"

/-- The variant returned by `GetValue` and by `Evaluate`: a number, a text or an error. -/
inductive Value where
  | number (d : Double)
  | text (s : String)
  | error (e : FormulaError)
deriving DecidableEq, Repr

/-- What a call can raise instead of returning. -/
inductive Fault where
  /-- The statement `throw FormulaError(...)`. -/
  | formulaError (e : FormulaError)
  /-- The statement `throw InvalidPositionException("Invalid position")`. -/
  | invalidPosition
  /-- The statement `throw FormulaException(msg)`. -/
  | formulaException (msg : String)
  /-- The exception `std::out_of_range` of `cells_.at(pos)` on a missing key. -/
  | outOfRange
  /-- A member call through a null owning pointer (undefined behaviour in C++). -/
  | nullDereference
deriving DecidableEq, Repr

/-- Modelled from the spec: the Cell collaborator (`cell.h` and `cell.cpp` are not among
the sources). It holds a source text, a derived Value and the signal "is referenced by at
least one other cell". -/
structure Cell where
  text_ : String
  value_ : Value
  referenced_ : Bool
deriving DecidableEq, Repr

/-- Modelled from the spec: `CurrentText()` of the Cell contract. -/
def Cell.GetText (c : Cell) : String := c.text_

/-- Modelled from the spec: `CurrentValue()` of the Cell contract. -/
def Cell.GetValue (c : Cell) : Value := c.value_

/-- Modelled from the spec: `IsReferenced()` of the Cell contract. -/
def Cell.IsReferenced (c : Cell) : Bool := c.referenced_

/-- Modelled from the spec: what the sources leave to the platform and to collaborators.
`derive` is the Value a cell derives from a source text; `num_get` is the numeric
extraction of the stream library on an input without leading whitespace: it returns the
converted double (or `none` when the conversion fails) and the characters it did not
consume; `put_double` is what the stream library writes for `output << value` on a
double. -/
structure Externals where
  bounds : Bounds
  derive : String → Value
  num_get : List Char → Option Double × List Char
  put_double : Double → String

/-- Modelled from the spec: a cell as `std::make_unique<Cell>(*this)` creates it, with no
content and no reference to it. -/
def Cell.fresh (x : Externals) : Cell := ⟨"", x.derive "", false⟩

/-- Modelled from the spec: `SetContent(text)` of the Cell contract (`Cell::Set`). The
reference signal belongs to the dependency tracker and is not touched. -/
def Cell.Set (x : Externals) (c : Cell) (text : String) : Cell :=
  { c with text_ := text, value_ := x.derive text }

/-- Modelled from the spec: `ClearContent()` of the Cell contract (`Cell::Clear`), which
empties the content. -/
def Cell.Clear (x : Externals) (c : Cell) : Cell := c.Set x ""

/-- Modelled from the spec: the executable tree (`FormulaAST.h` is not among the sources).
`Execute` runs the tree with a resolver for references and returns a number or raises;
`GetCells` is the raw sequence of referenced positions in traversal order. -/
structure FormulaAST where
  Execute : (Position → Except Fault Double) → Except Fault Double
  GetCells : List Position

/-- The class `Formula`: it owns the parsed tree `ast_`. -/
structure Formula where
  ast_ : FormulaAST

/-- The class `Sheet`: the mapping `cells_` from positions to owned cells. -/
structure Sheet where
  cells_ : List (Position × Option Cell)
deriving DecidableEq, Repr

/-- The structure `Size` returned by `GetPrintableSize`. -/
structure Size where
  rows : Int
  cols : Int
deriving DecidableEq, Repr

/-! ## Grid storage (`sheet.cpp`) -/

/-- The call `cells_.find(pos)`: `none` is `cells_.end()`, `some ptr` is the entry. -/
def findEntry (pos : Position) : List (Position × Option Cell) → Option (Option Cell)
  | [] => none
  | e :: rest => if e.1 = pos then some e.2 else findEntry pos rest

/-- Assignment through the iterator of `cells_.find(pos)`: the pointer stored in the
entry of `pos` becomes `ptr`. -/
def storeEntry (pos : Position) (ptr : Option Cell) :
    List (Position × Option Cell) → List (Position × Option Cell)
  | [] => []
  | e :: rest => if e.1 = pos then (e.1, ptr) :: rest else e :: storeEntry pos ptr rest

/-- The empty sheet made by `CreateSheet`. -/
def Sheet.empty : Sheet := ⟨[]⟩

/-- `Sheet::GetCellPtr` (lines 101-110). -/
def Sheet.GetCellPtr (x : Externals) (s : Sheet) (pos : Position) :
    Except Fault (Option Cell) :=
  if !pos.IsValid x.bounds then .error Fault.invalidPosition
  else
    match findEntry pos s.cells_ with
    | none => .ok none
    | some ptr => .ok ptr

/-- `Sheet::GetCell` (lines 29-36), which forwards to `GetCellPtr`. -/
def Sheet.GetCell (x : Externals) (s : Sheet) (pos : Position) :
    Except Fault (Option Cell) :=
  s.GetCellPtr x pos

/-- `Sheet::SetCell` (lines 15-26). -/
def Sheet.SetCell (x : Externals) (s : Sheet) (pos : Position) (text : String) :
    Except Fault Sheet :=
  if !pos.IsValid x.bounds then .error Fault.invalidPosition
  else
    let cells :=
      match findEntry pos s.cells_ with
      | none => (pos, some (Cell.fresh x)) :: s.cells_
      | some _ => s.cells_
    match findEntry pos cells with
    | none => .error Fault.outOfRange
    | some none => .error Fault.nullDereference
    | some (some c) => .ok ⟨storeEntry pos (some (c.Set x text)) cells⟩

/-- `Sheet::ClearCell` (lines 39-51). -/
def Sheet.ClearCell (x : Externals) (s : Sheet) (pos : Position) : Except Fault Sheet :=
  if !pos.IsValid x.bounds then .error Fault.invalidPosition
  else
    match findEntry pos s.cells_ with
    | some (some c) =>
      let cleared := c.Clear x
      if !cleared.IsReferenced then .ok ⟨storeEntry pos none s.cells_⟩
      else .ok ⟨storeEntry pos (some cleared) s.cells_⟩
    | _ => .ok s

/-- One turn of the loop of `GetPrintableSize` (lines 58-63). -/
def sizeStep (result : Size) (it : Position × Option Cell) : Size :=
  match it.2 with
  | some _ => ⟨max result.rows (it.1.row + 1), max result.cols (it.1.col + 1)⟩
  | none => result

/-- `Sheet::GetPrintableSize` (lines 54-67). -/
def Sheet.GetPrintableSize (s : Sheet) : Size :=
  let result := s.cells_.foldl sizeStep ⟨0, 0⟩
  ⟨result.rows, result.cols⟩

/-- The statement `output << value` inside `std::visit` of `PrintValues` (line 78): a
number as the stream writes it, a text as it is, an error through `ToString`. -/
def putValue (x : Externals) : Value → String
  | Value.number d => x.put_double d
  | Value.text t => t
  | Value.error e => e.ToString

/-- One turn of the inner loop of `PrintValues` and `PrintTexts` (lines 74-79, 90-94):
a tab before every column but the first, then what `emit` gives for the cell when the
entry exists, is not null and has a non-empty text. -/
def printCell (emit : Cell → String) (s : Sheet) (row col : Nat) : String :=
  (if col > 0 then "\t" else "") ++
    match findEntry ⟨(row : Int), (col : Int)⟩ s.cells_ with
    | some (some c) => if !c.GetText.isEmpty then emit c else ""
    | _ => ""

/-- One turn of the outer loop of `PrintValues` and `PrintTexts`: the inner loop over
the columns, then the newline. -/
def printRow (emit : Cell → String) (s : Sheet) (cols : Nat) (row : Nat) : String :=
  (List.range cols).foldl (fun output col => output ++ printCell emit s row col) "" ++ "\n"

/-- The two nested loops of `PrintValues` and `PrintTexts` over `GetPrintableSize`; the
result is what was written to `output`. -/
def printGrid (emit : Cell → String) (s : Sheet) : String :=
  let size := s.GetPrintableSize
  (List.range size.rows.toNat).foldl
    (fun output row => output ++ printRow emit s size.cols.toNat row) ""

/-- `Sheet::PrintValues` (lines 70-83). -/
def Sheet.PrintValues (x : Externals) (s : Sheet) : String :=
  printGrid (fun c => putValue x c.GetValue) s

/-- `Sheet::PrintTexts` (lines 86-98). -/
def Sheet.PrintTexts (s : Sheet) : String :=
  printGrid (fun c => c.GetText) s

/-! ## Formula engine (`formula.cpp`) -/

/-- The whitespace of the classic locale, which a formatted extraction skips first. -/
def isSpace (c : Char) : Bool :=
  c = Char.ofNat 32 || c = Char.ofNat 9 || c = Char.ofNat 10 ||
    c = Char.ofNat 11 || c = Char.ofNat 12 || c = Char.ofNat 13

/-- The expression `in >> result` on `std::istringstream in(value)`, with `in.eof()`
afterwards. The first component is the extracted double, `none` when the extraction
fails; the second is `in.eof()`. Leading whitespace is skipped; when nothing is left the
extraction fails at end of input; otherwise `num_get` converts a prefix and the stream is
at its end exactly when nothing is left unconsumed. -/
def extractDouble (x : Externals) (value : String) : Option Double × Bool :=
  let rest := value.data.dropWhile isSpace
  if rest.isEmpty then (none, true)
  else
    let r := x.num_get rest
    (r.1, r.2.isEmpty)

/-- The lambda `args` of `Formula::Evaluate` (lines 166-182). -/
def args (x : Externals) (sheet : Sheet) (p : Position) : Except Fault Double :=
  if !p.IsValid x.bounds then .error (Fault.formulaError ⟨Category.Ref⟩)
  else
    match sheet.GetCell x p with
    | .error f => .error f
    | .ok none => .ok Double.zero
    | .ok (some cell) =>
      match cell.GetValue with
      | Value.number d => .ok d
      | Value.text value =>
        if value.isEmpty then .ok Double.zero
        else
          match extractDouble x value with
          | (some result, true) => .ok result
          | _ => .error (Fault.formulaError ⟨Category.Value⟩)
      | Value.error e => .error (Fault.formulaError e)

/-- `Formula::Evaluate` (lines 165-190): only `FormulaError` is caught. -/
def Formula.Evaluate (x : Externals) (f : Formula) (sheet : Sheet) : Except Fault Value :=
  match f.ast_.Execute (args x sheet) with
  | .ok d => .ok (Value.number d)
  | .error (Fault.formulaError e) => .ok (Value.error e)
  | .error other => .error other

/-- The loop of `std::unique` after its first element: `last` is the element kept last. -/
def uniqueAux {α : Type} [DecidableEq α] (last : α) : List α → List α
  | [] => []
  | y :: ys => if last = y then uniqueAux last ys else y :: uniqueAux y ys

/-- The call `std::unique(cells.begin(), cells.end())` followed by the `resize`. -/
def unique {α : Type} [DecidableEq α] : List α → List α
  | [] => []
  | y :: ys => y :: uniqueAux y ys

/-- `Formula::GetReferencedCells` (lines 192-199). -/
def Formula.GetReferencedCells (x : Externals) (f : Formula) : List Position :=
  unique (f.ast_.GetCells.filter (fun cell => cell.IsValid x.bounds))


/-- The constructor of `Formula` (lines 159-163). `ParseFormulaAST` is the parser of the
absent `FormulaAST.cpp`: it returns the tree or raises an exception whose `what()` is the
given message. A parser exception is rethrown as `FormulaException(e.what())`. -/
def Formula.ctor (ParseFormulaAST : String → Except String FormulaAST)
    (expression : String) : Except Fault Formula :=
  match ParseFormulaAST expression with
  | .ok ast => .ok ⟨ast⟩
  | .error what => .error (Fault.formulaException what)

/-- `ParseFormula` (lines 213-220): whatever the constructor raises is caught by
`catch (...)` and replaced by `FormulaException("")`. -/
def ParseFormula (ParseFormulaAST : String → Except String FormulaAST)
    (expression : String) : Except Fault Formula :=
  match Formula.ctor ParseFormulaAST expression with
  | .ok formula => .ok formula
  | .error _ => .error (Fault.formulaException "")

/-! ## Reachable grids and specification-side notions -/

/-- Modelled from the spec: the dependency tracker, an external collaborator that owns the
"is referenced" signal and the derived values. While a write is processed it may renew the
value and the reference signal of any live cell; it never touches a source text, a position
or a released slot. -/
def Sheet.retrack (g : Position → Cell → Value × Bool) (s : Sheet) : Sheet :=
  ⟨s.cells_.map (fun it =>
    (it.1, it.2.map (fun c => { c with value_ := (g it.1 c).1, referenced_ := (g it.1 c).2 })))⟩

/-- The grids reachable from the empty grid by `SetCell` and `ClearCell` calls that
return, with the tracker acting in between. -/
inductive Reachable (x : Externals) : Sheet → Prop where
  | empty : Reachable x Sheet.empty
  | write (s s1 : Sheet) (pos : Position) (text : String) :
      Reachable x s → s.SetCell x pos text = .ok s1 → Reachable x s1
  | clear (s s1 : Sheet) (pos : Position) :
      Reachable x s → s.ClearCell x pos = .ok s1 → Reachable x s1
  | track (s : Sheet) (g : Position → Cell → Value × Bool) :
      Reachable x s → Reachable x (s.retrack g)

/-- The representation invariant of `cells_`: a map has one entry per key, and every key
went through the validity check of `SetCell`. -/
def Sheet.WF (x : Externals) (s : Sheet) : Prop :=
  (s.cells_.map Prod.fst).Nodup ∧ ∀ k ∈ s.cells_.map Prod.fst, k.IsValid x.bounds = true

/-- A result of the resolver or of the tree that is a number or a categorical error. -/
def isCategorical : Except Fault Double → Bool
  | .ok _ => true
  | .error (Fault.formulaError _) => true
  | .error _ => false

/-- Full de-duplication that keeps each element at its first occurrence. -/
def firstOccurrences {α : Type} [DecidableEq α] : List α → List α
  | [] => []
  | y :: ys => y :: (firstOccurrences ys).filter (fun z => decide (z ≠ y))

/-- Equal elements stand together: once the run of copies of the head is over, the head
does not come back, and so on down the list. -/
def Grouped {α : Type} [DecidableEq α] : List α → Prop
  | [] => True
  | y :: ys => (∀ z ∈ ys.dropWhile (fun z => decide (z = y)), z ≠ y) ∧ Grouped ys

/-- The grid a caller holds after a call of `SetCell` or `ClearCell`: the grid returned;
the grid as it was when the call threw `InvalidPositionException`, which is thrown by the
first statement, before `cells_` is touched; and no grid at all after any other fault: a
call through a null pointer is undefined behaviour and the program does not go on. -/
def gridAfter (s : Sheet) (r : Except Fault Sheet) : Option Sheet :=
  match r with
  | .ok s1 => some s1
  | .error Fault.invalidPosition => some s
  | .error _ => none

/-- A call on the grid: Write, Read, Clear, or the dependency tracker acting between
them. -/
inductive Call where
  | write (pos : Position) (text : String)
  | read (pos : Position)
  | clear (pos : Position)
  | tracker (g : Position → Cell → Value × Bool)

/-- The grid after one call, or `none` when the program does not survive the call. A
Read returns or throws `InvalidPositionException` and leaves the grid as it is. -/
def applyCall (x : Externals) (s : Sheet) : Call → Option Sheet
  | Call.write pos text => gridAfter s (s.SetCell x pos text)
  | Call.read _ => some s
  | Call.clear pos => gridAfter s (s.ClearCell x pos)
  | Call.tracker g => some (s.retrack g)

/-- The grid after a sequence of calls, each of which returns or throws an exception the
caller catches; `none` when the program does not survive one of the calls. -/
def runCalls (x : Externals) : Sheet → List Call → Option Sheet
  | s, [] => some s
  | s, c :: rest =>
    match applyCall x s c with
    | some s1 => runCalls x s1 rest
    | none => none

/-- Whether a call is a Write at `p`. -/
def Call.writesAt (p : Position) : Call → Bool
  | Call.write pos _ => decide (pos = p)
  | _ => false

/-- The reference definition of the spec for the de-duplication: each maximal run of
consecutive equal elements is collapsed into a single occurrence. -/
def collapseRuns {α : Type} [DecidableEq α] : List α → List α
  | [] => []
  | [y] => [y]
  | y :: z :: rest =>
    if y = z then collapseRuns (z :: rest) else y :: collapseRuns (z :: rest)

/-- The fields of a line joined by tabs. -/
def joinFields : List String → String
  | [] => ""
  | [f] => f
  | f :: g :: rest => f ++ "\t" ++ joinFields (g :: rest)

/-- The lines of a table of fields, each joined by tabs and ended by a newline, one after
the other. -/
def joinLines : List (List String) → String
  | [] => ""
  | line :: rest => joinFields line ++ "\n" ++ joinLines rest

/-- The field of row `row`, column `col`: empty when the mapping has no cell there or the
cell has an empty text, and what `emit` gives for the cell otherwise. -/
def fieldAt (emit : Cell → String) (s : Sheet) (row col : Nat) : String :=
  match findEntry ⟨(row : Int), (col : Int)⟩ s.cells_ with
  | some (some c) => if c.GetText = "" then "" else emit c
  | _ => ""

/-- The table of the fields of a grid, rows and columns in increasing order. -/
def fieldTable (emit : Cell → String) (s : Sheet) : List (List String) :=
  (List.range s.GetPrintableSize.rows.toNat).map (fun row =>
    (List.range s.GetPrintableSize.cols.toNat).map (fun col => fieldAt emit s row col))

/-- The tab character. -/
def tabChar : Char := Char.ofNat 9

/-- The newline character. -/
def newlineChar : Char := Char.ofNat 10

/-- The output is the table written line by line, the table having `rows` lines of `cols`
fields each. -/
def IsTableOutput (rows cols : Nat) (table : List (List String)) (output : String) : Prop :=
  table.length = rows ∧ (∀ line ∈ table, line.length = cols) ∧ output = joinLines table

/-- No field of the table contains a tab or a newline. -/
def PlainFields (table : List (List String)) : Prop :=
  ∀ line ∈ table, ∀ f ∈ line, tabChar ∉ f.data ∧ newlineChar ∉ f.data

/-- The output has exactly `rows` newline characters, and every line of the table has,
once written, no newline and exactly `cols - 1` tab characters. -/
def CountsMatch (rows cols : Nat) (table : List (List String)) (output : String) : Prop :=
  output.data.count newlineChar = rows ∧
  ∀ line ∈ table, newlineChar ∉ (joinFields line).data ∧
    (joinFields line).data.count tabChar + 1 = cols

/-- The characters `field` are, from the first to the last, a numeric literal of value `d`:
the numeric extraction converts them to `d` and leaves nothing unconsumed. -/
def wholeLiteral (x : Externals) (field : List Char) (d : Double) : Prop :=
  x.num_get field = (some d, [])

/-- Whether equal elements stand together is checked by running through the list. -/
def Grouped.decidable {α : Type} [DecidableEq α] : (l : List α) → Decidable (Grouped l)
  | [] => isTrue trivial
  | y :: ys =>
    haveI := Grouped.decidable ys
    inferInstanceAs
      (Decidable ((∀ z ∈ ys.dropWhile (fun z => decide (z = y)), z ≠ y) ∧ Grouped ys))

instance Grouped.instDecidable {α : Type} [DecidableEq α] (l : List α) :
    Decidable (Grouped l) :=
  Grouped.decidable l

/-! ## Sample inputs -/

/-- A grid of 16384 rows and 16384 columns. -/
def sampleBounds : Bounds := ⟨16384, 16384⟩

/-- The double 3.5 (bit pattern 0x400C000000000000). -/
def double3_5 : Double := ⟨0x400C000000000000⟩

/-- The double 3 (bit pattern 0x4008000000000000). -/
def double3 : Double := ⟨0x4008000000000000⟩

/-- A numeric extraction for the literals of the examples: the field is the longest prefix
of digits and decimal points, the fields `3.5` and `3` convert, and what follows the field
is left unconsumed. -/
def sampleNumGet (s : List Char) : Option Double × List Char :=
  let field := s.takeWhile (fun c => c.isDigit || c = '.')
  let rest := s.dropWhile (fun c => c.isDigit || c = '.')
  (if field = ['3', '.', '5'] then some double3_5
   else if field = ['3'] then some double3
   else none, rest)

/-- A writer for the doubles of the examples. -/
def samplePutDouble (d : Double) : String :=
  if d = double3_5 then "3.5" else if d = double3 then "3" else "0"

/-- Sample externals: texts are their own value. -/
def sampleExternals : Externals :=
  ⟨sampleBounds, fun t => Value.text t, sampleNumGet, samplePutDouble⟩

/-- The position of row 0, column 0. -/
def posA : Position := ⟨0, 0⟩

/-- The position of row 0, column 1. -/
def posB : Position := ⟨0, 1⟩

/-- A position outside every grid. -/
def posOutside : Position := ⟨-1, 0⟩

/-- A parser that rejects the expression `1+` with the message `unexpected end` and
turns any other expression into a reference to `posA`. -/
def sampleParser (expression : String) : Except String FormulaAST :=
  if expression = "1+" then .error "unexpected end"
  else .ok ⟨fun r => r posA, [posA]⟩

/-- A grid with one live cell at `posA` whose value is the text `t`. -/
def sheetWithText (t : String) : Sheet := ⟨[(posA, some ⟨t, Value.text t, false⟩)]⟩

/-- A grid with a referenced cell of empty text at row 0, column 0, a released slot at
row 4, column 2 and a cell of text `7` at row 1, column 3. -/
def sampleGrid : Sheet :=
  ⟨[(posA, some ⟨"", Value.text "", true⟩), (⟨4, 2⟩, none),
    (⟨1, 3⟩, some ⟨"7", Value.text "7", false⟩)]⟩

/-- A formula that is a single reference to `p`, with raw reference sequence `raw`. -/
def refFormula (p : Position) (raw : List Position) : Formula := ⟨⟨fun r => r p, raw⟩⟩

/-! ## Lemmas on the resolver -/

theorem getCell_of_valid (x : Externals) (s : Sheet) (p : Position)
    (h : p.IsValid x.bounds = true) :
    s.GetCell x p = .ok ((findEntry p s.cells_).getD none) := by
  unfold Sheet.GetCell Sheet.GetCellPtr
  simp only [h, Bool.not_true, Bool.false_eq_true, if_false]
  cases findEntry p s.cells_ <;> rfl

theorem args_isCategorical (x : Externals) (s : Sheet) (p : Position) :
    isCategorical (args x s p) = true := by
  unfold args
  by_cases h : p.IsValid x.bounds = true
  · rw [getCell_of_valid x s p h]
    simp only [h, Bool.not_true, Bool.false_eq_true, if_false]
    cases (findEntry p s.cells_).getD none with
    | none => rfl
    | some cell =>
      simp only
      cases cell.GetValue with
      | number d => rfl
      | text value =>
        simp only
        split
        · rfl
        · split <;> rfl
      | error e => rfl
  · simp only [Bool.not_eq_true] at h
    simp [h, isCategorical]

/-! ## Evaluate -/

/-- C1: for every grid and every tree that raises nothing but categorical errors whenever
its resolver raises nothing but categorical errors, `Evaluate` returns a Value: the number
variant with the computed number when the execution returned, the error variant with the
raised error when it raised; no fault escapes. -/
theorem Evaluate_never_raises (x : Externals) (f : Formula) (sheet : Sheet)
    (htree : ∀ r : Position → Except Fault Double,
      (∀ p, isCategorical (r p) = true) → isCategorical (f.ast_.Execute r) = true) :
    match f.ast_.Execute (args x sheet) with
    | .ok d => f.Evaluate x sheet = .ok (Value.number d)
    | .error (Fault.formulaError e) => f.Evaluate x sheet = .ok (Value.error e)
    | .error _ => False := by
  have h := htree (args x sheet) (args_isCategorical x sheet)
  unfold Formula.Evaluate
  cases hx : f.ast_.Execute (args x sheet) with
  | ok d => rfl
  | error e =>
    cases e with
    | formulaError e => rfl
    | invalidPosition => rw [hx] at h; exact absurd h (by decide)
    | formulaException m => rw [hx] at h; simp [isCategorical] at h
    | outOfRange => rw [hx] at h; exact absurd h (by decide)
    | nullDereference => rw [hx] at h; exact absurd h (by decide)

theorem Evaluate_never_raises_witness :
    (refFormula posA []).Evaluate sampleExternals (sheetWithText "3.5")
        = .ok (Value.number double3_5) ∧
    (refFormula posOutside []).Evaluate sampleExternals (sheetWithText "3.5")
        = .ok (Value.error ⟨Category.Ref⟩) :=
  ⟨Evaluate_never_raises sampleExternals (refFormula posA []) (sheetWithText "3.5")
      (fun _ hr => hr posA),
   Evaluate_never_raises sampleExternals (refFormula posOutside []) (sheetWithText "3.5")
      (fun _ hr => hr posOutside)⟩

/-- C2: for every grid and every position that fails the validity predicate the resolver
fails with category Ref whatever the grid holds, although `GetCell` at that position
would raise the out-of-bounds fault; the resolver raises that fault at no position. -/
theorem args_invalid_position (x : Externals) (p : Position)
    (h : p.IsValid x.bounds = false) :
    (∀ sheet : Sheet, args x sheet p = .error (Fault.formulaError ⟨Category.Ref⟩)) ∧
    (∀ sheet : Sheet, sheet.GetCell x p = .error Fault.invalidPosition) ∧
    (∀ (sheet : Sheet) (q : Position), args x sheet q ≠ .error Fault.invalidPosition) := by
  refine ⟨fun sheet => ?_, fun sheet => ?_, fun sheet q hq => ?_⟩
  · simp [args, h]
  · simp [Sheet.GetCell, Sheet.GetCellPtr, h]
  · have hc := args_isCategorical x sheet q
    rw [hq] at hc
    exact absurd hc (by decide)

theorem args_invalid_position_witness :
    posOutside.IsValid sampleExternals.bounds = false ∧
    args sampleExternals (sheetWithText "3.5") posOutside
      = .error (Fault.formulaError ⟨Category.Ref⟩) :=
  ⟨by decide,
   (args_invalid_position sampleExternals posOutside (by decide)).1 (sheetWithText "3.5")⟩

/-- C3: for every grid and every valid position p, the resolver yields 0 when `GetCell`
reports no cell at p, yields the stored number when the value of the cell is a number, and
raises the very error held by the cell, so the same category, when the value is a
FormulaError. -/
theorem args_valid_position (x : Externals) (sheet : Sheet) (p : Position)
    (h : p.IsValid x.bounds = true) :
    (sheet.GetCell x p = .ok none → args x sheet p = .ok Double.zero) ∧
    (∀ (cell : Cell) (d : Double), sheet.GetCell x p = .ok (some cell) →
        cell.GetValue = Value.number d → args x sheet p = .ok d) ∧
    (∀ (cell : Cell) (e : FormulaError), sheet.GetCell x p = .ok (some cell) →
        cell.GetValue = Value.error e →
        args x sheet p = .error (Fault.formulaError e) ∧
        args x sheet p = .error (Fault.formulaError ⟨e.GetCategory⟩)) := by
  refine ⟨fun hc => ?_, fun cell d hc hv => ?_, fun cell e hc hv => ?_⟩
  · simp [args, h, hc]
  · simp [args, h, hc, hv]
  · simp [args, h, hc, hv, FormulaError.GetCategory]

theorem args_valid_position_witness :
    args sampleExternals Sheet.empty posA = .ok Double.zero ∧
    args sampleExternals ⟨[(posA, some ⟨"=1/0", Value.error ⟨Category.Div0⟩, false⟩)]⟩ posA
      = .error (Fault.formulaError ⟨Category.Div0⟩) :=
  ⟨(args_valid_position sampleExternals Sheet.empty posA (by decide)).1 rfl,
   ((args_valid_position sampleExternals
      ⟨[(posA, some ⟨"=1/0", Value.error ⟨Category.Div0⟩, false⟩)]⟩ posA (by decide)).2.2
      ⟨"=1/0", Value.error ⟨Category.Div0⟩, false⟩ ⟨Category.Div0⟩ rfl rfl).1⟩

/-- C4 (counterexample): the text of one blank followed by `3.5` does not start with a
numeric literal, its first character being whitespace that the numeric extraction does not
take, and yet the resolver yields 3.5 for a cell holding it. -/
theorem args_text_leading_blank :
    (sheetWithText " 3.5").GetCell sampleExternals posA
      = .ok (some ⟨" 3.5", Value.text " 3.5", false⟩) ∧
    " 3.5".data.head? = some ' ' ∧
    ¬ wholeLiteral sampleExternals " 3.5".data double3_5 ∧
    args sampleExternals (sheetWithText " 3.5") posA = .ok double3_5 := by
  refine ⟨rfl, rfl, ?_, rfl⟩
  unfold wholeLiteral
  decide

/-- C4 (amended): for every valid position whose cell has a text value, the resolver
yields 0 when the text is empty; when it is not empty, the resolver yields a number exactly
when the text without its leading whitespace is not exhausted and is, up to the last
character of the text, a numeric literal, that number being the result, and in every other
case it raises Value. In particular the text `3.5` resolves to the number the extraction
converts it to, and `3x`, of which the extraction leaves a part unconsumed, raises Value. -/
theorem args_text_value (x : Externals) (sheet : Sheet) (p : Position) (cell : Cell)
    (t : String) (h : p.IsValid x.bounds = true)
    (hc : sheet.GetCell x p = .ok (some cell)) (hv : cell.GetValue = Value.text t) :
    (t.isEmpty = true → args x sheet p = .ok Double.zero) ∧
    (t.isEmpty = false →
      (∀ d, args x sheet p = .ok d ↔
        (t.data.dropWhile isSpace ≠ [] ∧ wholeLiteral x (t.data.dropWhile isSpace) d)) ∧
      ((¬ ∃ d, args x sheet p = .ok d) →
        args x sheet p = .error (Fault.formulaError ⟨Category.Value⟩))) ∧
    (t = "3.5" → ∀ d, wholeLiteral x "3.5".data d → args x sheet p = .ok d) ∧
    (t = "3x" → (x.num_get "3x".data).2 ≠ [] →
      args x sheet p = .error (Fault.formulaError ⟨Category.Value⟩)) := by
  have hargs : args x sheet p =
      if t.isEmpty then .ok Double.zero
      else
        match extractDouble x t with
        | (some result, true) => .ok result
        | _ => .error (Fault.formulaError ⟨Category.Value⟩) := by
    simp [args, h, hc, hv]
  have hmain : t.isEmpty = false →
      ((∀ d, args x sheet p = .ok d ↔
        (t.data.dropWhile isSpace ≠ [] ∧ wholeLiteral x (t.data.dropWhile isSpace) d)) ∧
      ((¬ ∃ d, args x sheet p = .ok d) →
        args x sheet p = .error (Fault.formulaError ⟨Category.Value⟩))) := by
    intro hne
    rw [hargs]
    simp only [hne, Bool.false_eq_true, if_false]
    unfold extractDouble wholeLiteral
    cases hrest : t.data.dropWhile isSpace with
    | nil => simp
    | cons c cs =>
      simp only [List.isEmpty_cons, Bool.false_eq_true, if_false]
      rcases hng : x.num_get (c :: cs) with ⟨r, rem⟩
      cases r with
      | none => simp
      | some v =>
        cases rem with
        | nil => simp
        | cons a as => simp
  refine ⟨fun he => ?_, hmain, fun ht d hd => ?_, fun ht hrem => ?_⟩
  · rw [hargs]; simp [he]
  · subst ht
    have hne : "3.5".isEmpty = false := by decide
    have hdrop : "3.5".data.dropWhile isSpace = "3.5".data := by decide
    refine ((hmain hne).1 d).2 ⟨?_, ?_⟩
    · rw [hdrop]; decide
    · rw [hdrop]; exact hd
  · subst ht
    have hne : "3x".isEmpty = false := by decide
    have hdrop : "3x".data.dropWhile isSpace = "3x".data := by decide
    refine (hmain hne).2 ?_
    rintro ⟨d, hd⟩
    have hw := (((hmain hne).1 d).1 hd).2
    rw [hdrop] at hw
    unfold wholeLiteral at hw
    rw [hw] at hrem
    exact hrem rfl

theorem args_text_value_witness :
    args sampleExternals (sheetWithText "") posA = .ok Double.zero ∧
    args sampleExternals (sheetWithText "3.5") posA = .ok double3_5 ∧
    args sampleExternals (sheetWithText "3x") posA
      = .error (Fault.formulaError ⟨Category.Value⟩) :=
  ⟨(args_text_value sampleExternals (sheetWithText "") posA ⟨"", Value.text "", false⟩ ""
      (by decide) rfl rfl).1 (by decide),
   (args_text_value sampleExternals (sheetWithText "3.5") posA
      ⟨"3.5", Value.text "3.5", false⟩ "3.5" (by decide) rfl rfl).2.2.1 rfl double3_5
      (by unfold wholeLiteral; decide),
   (args_text_value sampleExternals (sheetWithText "3x") posA
      ⟨"3x", Value.text "3x", false⟩ "3x" (by decide) rfl rfl).2.2.2 rfl (by decide)⟩

/-! ## Lemmas on the cell mapping -/

theorem storeEntry_keys (pos : Position) (ptr : Option Cell)
    (l : List (Position × Option Cell)) :
    (storeEntry pos ptr l).map Prod.fst = l.map Prod.fst := by
  induction l with
  | nil => rfl
  | cons e rest ih =>
    unfold storeEntry
    split
    · simp
    · simp [ih]

theorem findEntry_eq_none_iff (pos : Position) (l : List (Position × Option Cell)) :
    findEntry pos l = none ↔ pos ∉ l.map Prod.fst := by
  induction l with
  | nil => simp [findEntry]
  | cons e rest ih =>
    unfold findEntry
    by_cases h : e.1 = pos
    · simp [h]
    · simp only [h, if_false, ih, List.map_cons, List.mem_cons, not_or]
      exact ⟨fun hr => ⟨fun hp => h hp.symm, hr⟩, fun hr => hr.2⟩

theorem findEntry_storeEntry_same (pos : Position) (ptr : Option Cell)
    (l : List (Position × Option Cell)) :
    findEntry pos (storeEntry pos ptr l) = (findEntry pos l).map (fun _ => ptr) := by
  induction l with
  | nil => rfl
  | cons e rest ih =>
    by_cases h : e.1 = pos
    · simp [storeEntry, findEntry, h]
    · simp [storeEntry, findEntry, h, ih]

theorem findEntry_storeEntry_ne (pos q : Position) (ptr : Option Cell)
    (l : List (Position × Option Cell)) (hq : q ≠ pos) :
    findEntry q (storeEntry pos ptr l) = findEntry q l := by
  induction l with
  | nil => rfl
  | cons e rest ih =>
    by_cases h : e.1 = pos
    · have h1 : ¬ e.1 = q := fun h1 => hq (h1.symm.trans h)
      have h2 : ¬ pos = q := fun h2 => hq h2.symm
      simp [storeEntry, findEntry, h, h1, h2]
    · by_cases h1 : e.1 = q
      · simp only [storeEntry, h, if_false]
        simp [findEntry, h1]
      · simp only [storeEntry, h, if_false]
        simp [findEntry, h1, ih]

/-- What a returning `SetCell` did: the position is valid, a fresh cell was added when the
position had no entry, the entry held a cell, and that cell got the text. -/
theorem SetCell_ok (x : Externals) (s s1 : Sheet) (pos : Position) (text : String)
    (h : s.SetCell x pos text = .ok s1) :
    pos.IsValid x.bounds = true ∧
    ((findEntry pos s.cells_ = none ∧
        s1.cells_ = (pos, some ((Cell.fresh x).Set x text)) :: s.cells_) ∨
     (∃ c, findEntry pos s.cells_ = some (some c) ∧
        s1.cells_ = storeEntry pos (some (c.Set x text)) s.cells_)) := by
  unfold Sheet.SetCell at h
  by_cases hv : pos.IsValid x.bounds = true
  · refine ⟨hv, ?_⟩
    simp only [hv, Bool.not_true, Bool.false_eq_true, if_false] at h
    cases hf : findEntry pos s.cells_ with
    | none =>
      left
      simp only [hf, findEntry, if_true] at h
      injection h with h
      subst h
      simp [storeEntry]
    | some ptr =>
      right
      simp only [hf] at h
      cases ptr with
      | none => simp at h
      | some c =>
        simp only at h
        injection h with h
        subst h
        exact ⟨c, rfl, rfl⟩
  · simp only [Bool.not_eq_true] at hv
    simp [hv] at h

/-- What a returning `ClearCell` did: the position is valid and either nothing changed, no
cell being held there, or the held cell was cleared and then released or kept according to
its reference signal. -/
theorem ClearCell_ok (x : Externals) (s s1 : Sheet) (pos : Position)
    (h : s.ClearCell x pos = .ok s1) :
    pos.IsValid x.bounds = true ∧
    ((s1 = s ∧ ∀ c, findEntry pos s.cells_ ≠ some (some c)) ∨
     (∃ c, findEntry pos s.cells_ = some (some c) ∧
        ((c.Clear x).IsReferenced = false ∧ s1.cells_ = storeEntry pos none s.cells_ ∨
         (c.Clear x).IsReferenced = true ∧
           s1.cells_ = storeEntry pos (some (c.Clear x)) s.cells_))) := by
  unfold Sheet.ClearCell at h
  by_cases hv : pos.IsValid x.bounds = true
  · refine ⟨hv, ?_⟩
    simp only [hv, Bool.not_true, Bool.false_eq_true, if_false] at h
    cases hf : findEntry pos s.cells_ with
    | none =>
      left
      simp only [hf] at h
      injection h with h
      exact ⟨h.symm, fun c hc => by simp at hc⟩
    | some ptr =>
      cases ptr with
      | none =>
        left
        simp only [hf] at h
        injection h with h
        exact ⟨h.symm, fun c hc => by simp at hc⟩
      | some c =>
        right
        simp only [hf] at h
        refine ⟨c, rfl, ?_⟩
        by_cases hr : (c.Clear x).IsReferenced = true
        · right
          simp only [hr, Bool.not_true, Bool.false_eq_true, if_false] at h
          injection h with h
          subst h
          exact ⟨hr, rfl⟩
        · left
          simp only [Bool.not_eq_true] at hr
          simp only [hr, Bool.not_false, if_true] at h
          injection h with h
          subst h
          exact ⟨hr, rfl⟩
  · simp only [Bool.not_eq_true] at hv
    simp [hv] at h

theorem retrack_keys (g : Position → Cell → Value × Bool) (s : Sheet) :
    (s.retrack g).cells_.map Prod.fst = s.cells_.map Prod.fst := by
  simp [Sheet.retrack, List.map_map, Function.comp_def]

/-- Every reachable grid satisfies the representation invariant of `cells_`. -/
theorem reachable_WF (x : Externals) (s : Sheet) (hr : Reachable x s) : s.WF x := by
  induction hr with
  | empty => exact ⟨by simp [Sheet.empty], by simp [Sheet.empty]⟩
  | write s s1 pos text _ hset ih =>
    obtain ⟨hv, hcase⟩ := SetCell_ok x s s1 pos text hset
    rcases hcase with ⟨hnone, hs1⟩ | ⟨c, _, hs1⟩
    · rw [findEntry_eq_none_iff] at hnone
      unfold Sheet.WF
      rw [hs1]
      refine ⟨?_, ?_⟩
      · simp only [List.map_cons, List.nodup_cons]
        exact ⟨hnone, ih.1⟩
      · intro k hk
        simp only [List.map_cons, List.mem_cons] at hk
        rcases hk with hk | hk
        · rw [hk]; exact hv
        · exact ih.2 k hk
    · unfold Sheet.WF
      rw [hs1, storeEntry_keys]
      exact ih
  | clear s s1 pos _ hclr ih =>
    obtain ⟨_, hcase⟩ := ClearCell_ok x s s1 pos hclr
    rcases hcase with ⟨hs1, _⟩ | ⟨c, _, hcase⟩
    · rw [hs1]; exact ih
    · unfold Sheet.WF
      rcases hcase with ⟨_, hs1⟩ | ⟨_, hs1⟩ <;>
        (rw [hs1, storeEntry_keys]; exact ih)
  | track s g _ ih =>
    unfold Sheet.WF
    rw [retrack_keys]
    exact ih

theorem getCell_eq_some_iff (x : Externals) (s : Sheet) (p : Position) (c : Cell)
    (h : p.IsValid x.bounds = true) :
    s.GetCell x p = .ok (some c) ↔ findEntry p s.cells_ = some (some c) := by
  rw [getCell_of_valid x s p h]
  cases findEntry p s.cells_ with
  | none => simp
  | some ptr => simp

theorem getCell_eq_none_iff (x : Externals) (s : Sheet) (p : Position)
    (h : p.IsValid x.bounds = true) :
    s.GetCell x p = .ok none ↔ ∀ c, findEntry p s.cells_ ≠ some (some c) := by
  rw [getCell_of_valid x s p h]
  cases findEntry p s.cells_ with
  | none => simp
  | some ptr => cases ptr <;> simp

/-! ## Write and Clear -/

/-- C5 (failing input): on the grid reached from the empty grid by writing `x` at row 0,
column 0 and clearing that position, the position is valid and `GetCellPtr` reports
absence there, yet `SetCell` does not complete: the entry left behind by `ClearCell` holds a
null pointer, `cells_.find` finds it, no cell is created and the call goes through null. -/
theorem SetCell_after_ClearCell_null :
    ∃ s1 s2 : Sheet,
      Sheet.empty.SetCell sampleExternals posA "x" = .ok s1 ∧
      s1.ClearCell sampleExternals posA = .ok s2 ∧
      Reachable sampleExternals s2 ∧
      posA.IsValid sampleExternals.bounds = true ∧
      s2.GetCellPtr sampleExternals posA = .ok none ∧
      s2.SetCell sampleExternals posA "y" = .error Fault.nullDereference :=
  ⟨⟨[(posA, some ⟨"x", Value.text "x", false⟩)]⟩, ⟨[(posA, none)]⟩, rfl, rfl,
    Reachable.clear _ _ posA (Reachable.write _ _ posA "x" Reachable.empty rfl) rfl,
    by decide, rfl, rfl⟩

/-- C6: for every grid and every valid position p at which `GetCell` returns a cell,
`ClearCell` returns, and afterwards: if the cleared cell reports that it is referenced,
`GetCell` at p returns that cell, cleared, and its text is empty; if it reports no
reference, `GetCell` at p returns absence. -/
theorem ClearCell_then_GetCell (x : Externals) (s : Sheet) (p : Position) (c : Cell)
    (h : p.IsValid x.bounds = true) (hc : s.GetCell x p = .ok (some c)) :
    ∃ s1 : Sheet, s.ClearCell x p = .ok s1 ∧
      ((c.Clear x).IsReferenced = true →
        s1.GetCell x p = .ok (some (c.Clear x)) ∧ (c.Clear x).GetText = "") ∧
      ((c.Clear x).IsReferenced = false → s1.GetCell x p = .ok none) := by
  rw [getCell_eq_some_iff x s p c h] at hc
  by_cases hr : (c.Clear x).IsReferenced = true
  · refine ⟨⟨storeEntry p (some (c.Clear x)) s.cells_⟩, ?_, fun _ => ⟨?_, rfl⟩, fun hf => ?_⟩
    · simp [Sheet.ClearCell, h, hc, hr]
    · rw [getCell_eq_some_iff x _ p _ h, findEntry_storeEntry_same, hc]
      rfl
    · rw [hr] at hf; exact absurd hf (by decide)
  · simp only [Bool.not_eq_true] at hr
    refine ⟨⟨storeEntry p none s.cells_⟩, ?_, fun ht => ?_, fun _ => ?_⟩
    · simp [Sheet.ClearCell, h, hc, hr]
    · rw [hr] at ht; exact absurd ht (by decide)
    · rw [getCell_eq_none_iff x _ p h, findEntry_storeEntry_same, hc]
      intro c1 hc1
      simp at hc1

theorem ClearCell_then_GetCell_witness :
    ∃ s1 : Sheet,
      (⟨[(posA, some ⟨"x", Value.text "x", true⟩)]⟩ : Sheet).ClearCell sampleExternals posA
        = .ok s1 ∧
      (true = true →
        s1.GetCell sampleExternals posA = .ok (some ⟨"", Value.text "", true⟩) ∧
        (⟨"", Value.text "", true⟩ : Cell).GetText = "") ∧
      (true = false → s1.GetCell sampleExternals posA = .ok none) :=
  ClearCell_then_GetCell sampleExternals ⟨[(posA, some ⟨"x", Value.text "x", true⟩)]⟩ posA
    ⟨"x", Value.text "x", true⟩ (by decide) rfl

theorem uniqueAux_eq_unique_dropWhile {α : Type} [DecidableEq α] (a : α) (l : List α) :
    uniqueAux a l = unique (l.dropWhile (fun z => decide (z = a))) := by
  induction l with
  | nil => rfl
  | cons y ys ih =>
    by_cases h : a = y
    · subst h
      simp [uniqueAux, List.dropWhile, ih]
    · have h1 : ¬ y = a := fun h1 => h h1.symm
      simp [uniqueAux, List.dropWhile, h, h1, unique]

theorem mem_uniqueAux {α : Type} [DecidableEq α] (z : α) (l : List α) :
    ∀ a : α, (z ∈ uniqueAux a l → z ∈ l) ∧ (z ∈ l → z = a ∨ z ∈ uniqueAux a l) := by
  induction l with
  | nil => intro a; simp [uniqueAux]
  | cons y ys ih =>
    intro a
    by_cases h : a = y
    · subst h
      simp only [uniqueAux, if_true, List.mem_cons]
      exact ⟨fun hz => Or.inr ((ih a).1 hz),
        fun hz => hz.elim Or.inl (fun hz => (ih a).2 hz)⟩
    · simp only [uniqueAux, h, if_false, List.mem_cons]
      refine ⟨fun hz => hz.elim Or.inl (fun hz => Or.inr ((ih y).1 hz)), fun hz => ?_⟩
      rcases hz with hz | hz
      · exact Or.inr (Or.inl hz)
      · rcases (ih y).2 hz with hz | hz
        · exact Or.inr (Or.inl hz)
        · exact Or.inr (Or.inr hz)

theorem mem_unique {α : Type} [DecidableEq α] (z : α) (l : List α) :
    z ∈ unique l ↔ z ∈ l := by
  cases l with
  | nil => simp [unique]
  | cons y ys =>
    simp only [unique, List.mem_cons]
    exact ⟨fun hz => hz.elim Or.inl (fun hz => Or.inr ((mem_uniqueAux z ys y).1 hz)),
      fun hz => hz.elim Or.inl (fun hz => (mem_uniqueAux z ys y).2 hz)⟩

theorem uniqueAux_chain {α : Type} [DecidableEq α] (l : List α) :
    ∀ a : α, List.Chain (fun u v => u ≠ v) a (uniqueAux a l) := by
  induction l with
  | nil => intro a; exact List.Chain.nil
  | cons y ys ih =>
    intro a
    by_cases h : a = y
    · subst h
      simp only [uniqueAux, if_true]
      exact ih a
    · simp only [uniqueAux, h, if_false]
      exact List.Chain.cons h (ih y)

theorem unique_chain {α : Type} [DecidableEq α] (l : List α) :
    List.Chain' (fun u v => u ≠ v) (unique l) := by
  cases l with
  | nil => exact List.chain'_nil
  | cons y ys => exact uniqueAux_chain ys y

theorem mem_firstOccurrences {α : Type} [DecidableEq α] (z : α) (l : List α) :
    z ∈ firstOccurrences l ↔ z ∈ l := by
  induction l with
  | nil => simp [firstOccurrences]
  | cons y ys ih =>
    simp only [firstOccurrences, List.mem_cons, List.mem_filter, ih, decide_eq_true_eq]
    by_cases h : z = y
    · simp [h]
    · simp [h]

theorem firstOccurrences_filter {α : Type} [DecidableEq α] (q : α → Bool) (l : List α) :
    (firstOccurrences l).filter q = firstOccurrences (l.filter q) := by
  induction l with
  | nil => rfl
  | cons y ys ih =>
    by_cases hq : q y = true
    · simp only [firstOccurrences, List.filter_cons, hq, if_true]
      rw [List.filter_filter, ← ih, List.filter_filter]
      congr 2
      funext z
      exact Bool.and_comm _ _
    · simp only [firstOccurrences, List.filter_cons, hq, if_false, Bool.false_eq_true]
      rw [List.filter_filter, ← ih]
      apply List.filter_congr
      intro z _
      by_cases hqz : q z = true
      · have hzy : z ≠ y := by
          rintro rfl
          exact hq hqz
        simp [hzy, hqz]
      · simp [hqz]

theorem grouped_dropWhile {α : Type} [DecidableEq α] (q : α → Bool) (l : List α)
    (h : Grouped l) : Grouped (l.dropWhile q) := by
  induction l with
  | nil => exact h
  | cons y ys ih =>
    by_cases hq : q y = true
    · simp only [List.dropWhile, hq]
      exact ih h.2
    · simp only [Bool.not_eq_true] at hq
      simp only [List.dropWhile, hq]
      exact h

theorem filter_ne_eq_dropWhile {α : Type} [DecidableEq α] (a : α) (l : List α)
    (h : ∀ z ∈ l.dropWhile (fun z => decide (z = a)), z ≠ a) :
    l.filter (fun z => decide (z ≠ a)) = l.dropWhile (fun z => decide (z = a)) := by
  induction l with
  | nil => rfl
  | cons y ys ih =>
    by_cases hy : y = a
    · subst hy
      simp only [List.dropWhile, decide_True] at h ⊢
      simp only [List.filter_cons, ne_eq, not_true_eq_false, decide_False,
        Bool.false_eq_true, if_false]
      exact ih h
    · simp only [List.dropWhile, hy, decide_False] at h ⊢
      rw [List.filter_eq_self]
      intro z hz
      simpa using h z hz

theorem unique_of_grouped {α : Type} [DecidableEq α] (n : Nat) :
    ∀ l : List α, l.length ≤ n → Grouped l →
      (unique l).Nodup ∧ unique l = firstOccurrences l := by
  induction n with
  | zero =>
    intro l hl _
    have : l = [] := List.length_eq_zero.mp (Nat.le_zero.mp hl)
    subst this
    exact ⟨List.nodup_nil, rfl⟩
  | succ n ih =>
    intro l hl hg
    cases l with
    | nil => exact ⟨List.nodup_nil, rfl⟩
    | cons y ys =>
      have hlen : (ys.dropWhile (fun z => decide (z = y))).length ≤ n := by
        have h1 := (List.dropWhile_sublist (fun z => decide (z = y)) (l := ys)).length_le
        simp only [List.length_cons] at hl
        omega
      obtain ⟨hnd, heq⟩ := ih _ hlen (grouped_dropWhile _ ys hg.2)
      simp only [unique, firstOccurrences]
      rw [uniqueAux_eq_unique_dropWhile]
      refine ⟨List.nodup_cons.mpr ⟨fun hmem => ?_, hnd⟩, ?_⟩
      · rw [mem_unique] at hmem
        exact hg.1 y hmem rfl
      · rw [heq, firstOccurrences_filter, filter_ne_eq_dropWhile y ys hg.1]

/-! ## GetReferencedCells -/

/-- C8 (counterexample): for the raw sequence A, B, A of valid positions the result is
A, B, A: the position A occurs twice, and the result is not the sequence of first
occurrences A, B. -/
theorem GetReferencedCells_repeats :
    (refFormula posA [posA, posB, posA]).GetReferencedCells sampleExternals
      = [posA, posB, posA] ∧
    ¬ ((refFormula posA [posA, posB, posA]).GetReferencedCells sampleExternals).Nodup ∧
    (refFormula posA [posA, posB, posA]).GetReferencedCells sampleExternals
      ≠ firstOccurrences ([posA, posB, posA].filter
          (fun cell => cell.IsValid sampleExternals.bounds)) := by
  refine ⟨by decide, by decide, by decide⟩

/-- C8 (amended): `GetReferencedCells` never returns the same position twice in a row; and
for every raw sequence whose valid positions have equal positions standing together, each
position occurs at most once in the result, at the place of its first occurrence among the
valid positions of the raw sequence. -/
theorem GetReferencedCells_grouped (x : Externals) (f : Formula) :
    List.Chain' (fun u v => u ≠ v) (f.GetReferencedCells x) ∧
    (Grouped (f.ast_.GetCells.filter (fun cell => cell.IsValid x.bounds)) →
      (f.GetReferencedCells x).Nodup ∧
      f.GetReferencedCells x
        = firstOccurrences (f.ast_.GetCells.filter (fun cell => cell.IsValid x.bounds))) :=
  ⟨unique_chain _, fun hg => unique_of_grouped _ _ (Nat.le_refl _) hg⟩

theorem GetReferencedCells_grouped_witness :
    ((refFormula posA [posA, posA, posOutside, posB, posB]).GetReferencedCells
        sampleExternals).Nodup ∧
    (refFormula posA [posA, posA, posOutside, posB, posB]).GetReferencedCells sampleExternals
      = firstOccurrences ([posA, posA, posOutside, posB, posB].filter
          (fun cell => cell.IsValid sampleExternals.bounds)) :=
  (GetReferencedCells_grouped sampleExternals
    (refFormula posA [posA, posA, posOutside, posB, posB])).2 (by decide)

/-- C9: for every raw position sequence, a position is in the result of
`GetReferencedCells` exactly when it is in the raw sequence and satisfies the validity
predicate. -/
theorem GetReferencedCells_mem (x : Externals) (f : Formula) (p : Position) :
    p ∈ f.GetReferencedCells x ↔ (p ∈ f.ast_.GetCells ∧ p.IsValid x.bounds = true) := by
  unfold Formula.GetReferencedCells
  rw [mem_unique, List.mem_filter]

/-! ## GetPrintableSize -/

theorem mem_iff_findEntry (l : List (Position × Option Cell))
    (hnd : (l.map Prod.fst).Nodup) (p : Position) (ptr : Option Cell) :
    (p, ptr) ∈ l ↔ findEntry p l = some ptr := by
  induction l with
  | nil => simp [findEntry]
  | cons e rest ih =>
    simp only [List.map_cons, List.nodup_cons] at hnd
    by_cases h : e.1 = p
    · simp only [findEntry, h, if_true, List.mem_cons, Option.some.injEq]
      constructor
      · rintro (hm | hm)
        · rw [← hm]
        · exact absurd (List.mem_map_of_mem Prod.fst hm) (h ▸ hnd.1)
      · intro hm
        left
        rw [← hm, ← h]
    · simp only [findEntry, h, if_false, List.mem_cons]
      rw [← ih hnd.2]
      constructor
      · rintro (hm | hm)
        · exact absurd (by rw [← hm]) h
        · exact hm
      · exact Or.inr

theorem foldl_sizeStep_ge (l : List (Position × Option Cell)) :
    ∀ acc : Size, acc.rows ≤ (l.foldl sizeStep acc).rows ∧
      acc.cols ≤ (l.foldl sizeStep acc).cols := by
  induction l with
  | nil => intro acc; exact ⟨le_refl _, le_refl _⟩
  | cons e rest ih =>
    intro acc
    simp only [List.foldl_cons]
    have h := ih (sizeStep acc e)
    unfold sizeStep at h ⊢
    cases he : e.2 with
    | none => simp only [he] at h ⊢; exact h
    | some c =>
      simp only [he] at h ⊢
      exact ⟨le_trans (le_max_left _ _) h.1, le_trans (le_max_left _ _) h.2⟩

theorem foldl_sizeStep_live_le (l : List (Position × Option Cell)) :
    ∀ (acc : Size) (p : Position) (c : Cell), (p, some c) ∈ l →
      p.row + 1 ≤ (l.foldl sizeStep acc).rows ∧ p.col + 1 ≤ (l.foldl sizeStep acc).cols := by
  induction l with
  | nil => intro acc p c hm; simp at hm
  | cons e rest ih =>
    intro acc p c hm
    simp only [List.foldl_cons]
    rcases List.mem_cons.mp hm with hm | hm
    · have h := foldl_sizeStep_ge rest (sizeStep acc e)
      have hs : sizeStep acc e = ⟨max acc.rows (p.row + 1), max acc.cols (p.col + 1)⟩ := by
        rw [← hm]; rfl
      rw [hs] at h ⊢
      exact ⟨le_trans (le_max_right _ _) h.1, le_trans (le_max_right _ _) h.2⟩
    · exact ih _ p c hm

theorem foldl_sizeStep_attained (l : List (Position × Option Cell)) :
    ∀ acc : Size,
      ((l.foldl sizeStep acc).rows = acc.rows ∨
        ∃ p c, (p, some c) ∈ l ∧ (l.foldl sizeStep acc).rows = p.row + 1) ∧
      ((l.foldl sizeStep acc).cols = acc.cols ∨
        ∃ p c, (p, some c) ∈ l ∧ (l.foldl sizeStep acc).cols = p.col + 1) := by
  induction l with
  | nil => intro acc; exact ⟨Or.inl rfl, Or.inl rfl⟩
  | cons e rest ih =>
    intro acc
    simp only [List.foldl_cons]
    obtain ⟨hr, hc⟩ := ih (sizeStep acc e)
    have lift : ∀ (g : Position → Int) (v : Int),
        (∃ p c, (p, some c) ∈ rest ∧ v = g p) → ∃ p c, (p, some c) ∈ e :: rest ∧ v = g p :=
      fun g v ⟨p, c, hm, hv⟩ => ⟨p, c, List.mem_cons_of_mem _ hm, hv⟩
    rcases e with ⟨k, ptr⟩
    cases ptr with
    | none =>
      have hs : sizeStep acc (k, none) = acc := rfl
      rw [hs] at hr hc ⊢
      exact ⟨hr.imp id (lift (fun p => p.row + 1) _), hc.imp id (lift (fun p => p.col + 1) _)⟩
    | some c0 =>
      have hs : sizeStep acc (k, some c0)
          = ⟨max acc.rows (k.row + 1), max acc.cols (k.col + 1)⟩ := rfl
      rw [hs] at hr hc ⊢
      constructor
      · rcases hr with hr | hr
        · rcases max_cases acc.rows (k.row + 1) with hmx | hmx
          · left; rw [hr]; exact hmx.1
          · right; exact ⟨k, c0, List.mem_cons_self _ _, by rw [hr]; exact hmx.1⟩
        · exact Or.inr (lift (fun p => p.row + 1) _ hr)
      · rcases hc with hc | hc
        · rcases max_cases acc.cols (k.col + 1) with hmx | hmx
          · left; rw [hc]; exact hmx.1
          · right; exact ⟨k, c0, List.mem_cons_self _ _, by rw [hc]; exact hmx.1⟩
        · exact Or.inr (lift (fun p => p.col + 1) _ hc)

theorem isValid_nonneg (b : Bounds) (p : Position) (h : p.IsValid b = true) :
    0 ≤ p.row ∧ 0 ≤ p.col := by
  unfold Position.IsValid at h
  simp only [Bool.and_eq_true, decide_eq_true_eq] at h
  exact ⟨h.1.1.1, h.1.1.2⟩

/-- On a well-formed grid `GetCell` returns a cell at p exactly when the mapping has an
entry of p that holds this cell. -/
theorem getCell_some_iff_mem (x : Externals) (s : Sheet) (hwf : s.WF x) (p : Position)
    (c : Cell) : s.GetCell x p = .ok (some c) ↔ (p, some c) ∈ s.cells_ := by
  rw [mem_iff_findEntry s.cells_ hwf.1]
  by_cases h : p.IsValid x.bounds = true
  · exact getCell_eq_some_iff x s p c h
  · constructor
    · intro hg
      simp only [Bool.not_eq_true] at h
      simp [Sheet.GetCell, Sheet.GetCellPtr, h] at hg
    · intro hf
      have hk : p ∈ s.cells_.map Prod.fst := by
        by_contra hk
        rw [← findEntry_eq_none_iff] at hk
        rw [hk] at hf
        exact absurd hf (by simp)
      exact absurd (hwf.2 p hk) h

/-- C10: for every well-formed grid, `GetPrintableSize` returns (0, 0) when `GetCell`
reports a cell at no position; otherwise every position at which `GetCell` reports a cell,
whatever its text, lies inside the returned box, and the returned rows and columns are
1 + the row of such a position and 1 + the column of such a position, hence 1 + the
largest row and 1 + the largest column. After `SetCell` at row 2, column 1 on the empty
grid the size is (rows = 3, cols = 2). -/
theorem GetPrintableSize_spec (x : Externals) (s : Sheet) (hwf : s.WF x) :
    ((∀ p c, s.GetCell x p ≠ .ok (some c)) → s.GetPrintableSize = ⟨0, 0⟩) ∧
    ((∃ p c, s.GetCell x p = .ok (some c)) →
      (∀ p c, s.GetCell x p = .ok (some c) →
        p.row + 1 ≤ s.GetPrintableSize.rows ∧ p.col + 1 ≤ s.GetPrintableSize.cols) ∧
      (∃ p c, s.GetCell x p = .ok (some c) ∧ s.GetPrintableSize.rows = 1 + p.row) ∧
      (∃ p c, s.GetCell x p = .ok (some c) ∧ s.GetPrintableSize.cols = 1 + p.col)) ∧
    (∀ text : String, (⟨2, 1⟩ : Position).IsValid x.bounds = true →
      ∃ s1 : Sheet, Sheet.empty.SetCell x ⟨2, 1⟩ text = .ok s1 ∧
        s1.GetPrintableSize = ⟨3, 2⟩) := by
  have hsize : s.GetPrintableSize = s.cells_.foldl sizeStep ⟨0, 0⟩ := rfl
  obtain ⟨hatr, hatc⟩ := foldl_sizeStep_attained s.cells_ ⟨0, 0⟩
  refine ⟨fun hno => ?_, fun hex => ⟨fun p c hg => ?_, ?_, ?_⟩, fun text hv => ?_⟩
  · have hnomem : ∀ p c, (p, some c) ∉ s.cells_ := fun p c hm =>
      hno p c ((getCell_some_iff_mem x s hwf p c).2 hm)
    rw [hsize]
    rcases hatr with hr | ⟨p, c, hm, _⟩
    · rcases hatc with hc | ⟨p, c, hm, _⟩
      · cases hfold : s.cells_.foldl sizeStep ⟨0, 0⟩ with
        | mk rows cols =>
          rw [hfold] at hr hc
          simp only at hr hc
          rw [hr, hc]
      · exact absurd hm (hnomem p c)
    · exact absurd hm (hnomem p c)
  · rw [hsize]
    exact foldl_sizeStep_live_le s.cells_ ⟨0, 0⟩ p c ((getCell_some_iff_mem x s hwf p c).1 hg)
  · obtain ⟨p0, c0, hg0⟩ := hex
    have hm0 := (getCell_some_iff_mem x s hwf p0 c0).1 hg0
    have hle := (foldl_sizeStep_live_le s.cells_ ⟨0, 0⟩ p0 c0 hm0).1
    have hnn := (isValid_nonneg x.bounds p0
      (hwf.2 p0 (List.mem_map_of_mem Prod.fst hm0))).1
    rw [hsize]
    rcases hatr with hr | ⟨p, c, hm, hr⟩
    · rw [hr] at hle
      simp only at hle
      omega
    · exact ⟨p, c, (getCell_some_iff_mem x s hwf p c).2 hm, by rw [hr, add_comm]⟩
  · obtain ⟨p0, c0, hg0⟩ := hex
    have hm0 := (getCell_some_iff_mem x s hwf p0 c0).1 hg0
    have hle := (foldl_sizeStep_live_le s.cells_ ⟨0, 0⟩ p0 c0 hm0).2
    have hnn := (isValid_nonneg x.bounds p0
      (hwf.2 p0 (List.mem_map_of_mem Prod.fst hm0))).2
    rw [hsize]
    rcases hatc with hc | ⟨p, c, hm, hc⟩
    · rw [hc] at hle
      simp only at hle
      omega
    · exact ⟨p, c, (getCell_some_iff_mem x s hwf p c).2 hm, by rw [hc, add_comm]⟩
  · refine ⟨⟨[(⟨2, 1⟩, some ((Cell.fresh x).Set x text))]⟩, ?_, ?_⟩
    · simp [Sheet.SetCell, Sheet.empty, hv, findEntry, storeEntry]
    · simp [Sheet.GetPrintableSize, sizeStep]

theorem GetPrintableSize_spec_witness :
    sampleGrid.WF sampleExternals ∧
    sampleGrid.GetPrintableSize = ⟨2, 4⟩ ∧
    ((∀ p c, sampleGrid.GetCell sampleExternals p = .ok (some c) →
        p.row + 1 ≤ sampleGrid.GetPrintableSize.rows ∧
        p.col + 1 ≤ sampleGrid.GetPrintableSize.cols) ∧
      (∃ p c, sampleGrid.GetCell sampleExternals p = .ok (some c) ∧
        sampleGrid.GetPrintableSize.rows = 1 + p.row) ∧
      (∃ p c, sampleGrid.GetCell sampleExternals p = .ok (some c) ∧
        sampleGrid.GetPrintableSize.cols = 1 + p.col)) ∧
    ∃ s1 : Sheet, Sheet.empty.SetCell sampleExternals ⟨2, 1⟩ "x" = .ok s1 ∧
      s1.GetPrintableSize = ⟨3, 2⟩ :=
  ⟨⟨by decide, by decide⟩, by decide,
    (GetPrintableSize_spec sampleExternals sampleGrid ⟨by decide, by decide⟩).2.1
      ⟨posA, ⟨"", Value.text "", true⟩, rfl⟩,
    (GetPrintableSize_spec sampleExternals sampleGrid ⟨by decide, by decide⟩).2.2 "x"
      (by decide)⟩

/-! ## FormulaError -/

/-- C17: `ToString` of a Ref error is `#REF!`, of a Value error `#VALUE!`, of a Div0
error `#DIV/0!`; it is a total function, so it returns one of the three codes for every
FormulaError. -/
theorem FormulaError_ToString_codes :
    (FormulaError.mk Category.Ref).ToString = "#REF!" ∧
    (FormulaError.mk Category.Value).ToString = "#VALUE!" ∧
    (FormulaError.mk Category.Div0).ToString = "#DIV/0!" ∧
    ∀ e : FormulaError,
      e.ToString = "#REF!" ∨ e.ToString = "#VALUE!" ∨ e.ToString = "#DIV/0!" := by
  refine ⟨rfl, rfl, rfl, fun e => ?_⟩
  rcases e with ⟨c⟩
  cases c
  · exact Or.inl rfl
  · exact Or.inr (Or.inl rfl)
  · exact Or.inr (Or.inr rfl)

/-- C18: two FormulaError values compare equal with `operator==` exactly when they carry
the same category, and unequal exactly when the categories differ; two Div0 errors
compare equal. -/
theorem FormulaError_operator_eq_iff :
    (∀ a b : FormulaError, a.operator_eq b = true ↔ a.GetCategory = b.GetCategory) ∧
    (∀ a b : FormulaError, a.operator_eq b = false ↔ a.GetCategory ≠ b.GetCategory) ∧
    (FormulaError.mk Category.Div0).operator_eq (FormulaError.mk Category.Div0) = true := by
  refine ⟨fun a b => ?_, fun a b => ?_, rfl⟩
  · simp [FormulaError.operator_eq, FormulaError.GetCategory]
  · simp [FormulaError.operator_eq, FormulaError.GetCategory]

/-! ## ParseFormula -/

theorem ParseFormula_of_rejected (parse : String → Except String FormulaAST)
    (expression what : String) (h : parse expression = .error what) :
    Formula.ctor parse expression = .error (Fault.formulaException what) ∧
    ParseFormula parse expression = .error (Fault.formulaException "") := by
  simp [ParseFormula, Formula.ctor, h]

/-- C14 (failing input): the parser rejects the expression `1+` with the message
`unexpected end`; the constructor of `Formula` raises a FormulaException carrying that
message, and `ParseFormula` replaces it by a FormulaException whose message is empty. -/
theorem ParseFormula_drops_message :
    sampleParser "1+" = .error "unexpected end" ∧
    Formula.ctor sampleParser "1+" = .error (Fault.formulaException "unexpected end") ∧
    ParseFormula sampleParser "1+" = .error (Fault.formulaException "") ∧
    "unexpected end" ≠ "" :=
  ⟨rfl, (ParseFormula_of_rejected sampleParser "1+" "unexpected end" rfl).1,
    (ParseFormula_of_rejected sampleParser "1+" "unexpected end" rfl).2, by decide⟩

/-! ## More on GetPrintableSize -/

/-- C15 (failing input): writing the empty text at row 2, column 1 of the empty grid
returns a grid in which no cell has a non-empty text, so the tight box of non-empty
content is empty, and yet `GetPrintableSize` returns (rows = 3, cols = 2). -/
theorem GetPrintableSize_counts_empty_text :
    ∃ s : Sheet,
      Sheet.empty.SetCell sampleExternals ⟨2, 1⟩ "" = .ok s ∧
      (∀ p c, s.GetCell sampleExternals p = .ok (some c) → c.GetText = "") ∧
      s.GetPrintableSize = ⟨3, 2⟩ := by
  refine ⟨⟨[(⟨2, 1⟩, some ⟨"", Value.text "", false⟩)]⟩, rfl, fun p c h => ?_, by decide⟩
  have hwf : (⟨[(⟨2, 1⟩, some ⟨"", Value.text "", false⟩)]⟩ : Sheet).WF sampleExternals :=
    ⟨by decide, by decide⟩
  rw [getCell_some_iff_mem sampleExternals _ hwf] at h
  simp only [List.mem_singleton, Prod.mk.injEq, Option.some.injEq] at h
  rw [h.2]
  rfl

/-! ## GetReferencedCells against its reference definition -/

theorem cons_uniqueAux_eq_collapseRuns {α : Type} [DecidableEq α] (ys : List α) :
    ∀ y : α, y :: uniqueAux y ys = collapseRuns (y :: ys) := by
  induction ys with
  | nil => intro y; rfl
  | cons z rest ih =>
    intro y
    by_cases h : y = z
    · subst h
      simp only [uniqueAux, collapseRuns, if_true]
      exact ih y
    · simp only [uniqueAux, collapseRuns, h, if_false]
      rw [ih z]

theorem unique_eq_collapseRuns {α : Type} [DecidableEq α] (l : List α) :
    unique l = collapseRuns l := by
  cases l with
  | nil => rfl
  | cons y ys => exact cons_uniqueAux_eq_collapseRuns ys y

theorem uniqueAux_sublist {α : Type} [DecidableEq α] (l : List α) :
    ∀ a : α, List.Sublist (uniqueAux a l) l := by
  induction l with
  | nil => intro a; exact List.Sublist.slnil
  | cons y ys ih =>
    intro a
    by_cases h : a = y
    · simp only [uniqueAux, h, if_true]
      exact List.Sublist.cons _ (ih y)
    · simp only [uniqueAux, h, if_false]
      exact List.Sublist.cons₂ _ (ih y)

theorem unique_sublist {α : Type} [DecidableEq α] (l : List α) :
    List.Sublist (unique l) l := by
  cases l with
  | nil => exact List.Sublist.slnil
  | cons y ys => exact List.Sublist.cons₂ _ (uniqueAux_sublist ys y)

/-- C19: for every raw position sequence, `GetReferencedCells` equals the reference
definition: drop every invalid position, then collapse each maximal run of consecutive
equal positions into one occurrence. The result is an order-preserving subsequence of the
raw sequence, no two neighbours in it are equal, a valid position referenced twice in a
row is returned once, and two distinct valid positions are both returned in traversal
order. -/
theorem GetReferencedCells_eq_collapseRuns (x : Externals) (f : Formula) :
    f.GetReferencedCells x
      = collapseRuns (f.ast_.GetCells.filter (fun cell => cell.IsValid x.bounds)) ∧
    List.Sublist (f.GetReferencedCells x) f.ast_.GetCells ∧
    List.Chain' (fun u v => u ≠ v) (f.GetReferencedCells x) ∧
    (∀ p : Position, p.IsValid x.bounds = true → f.ast_.GetCells = [p, p] →
      f.GetReferencedCells x = [p]) ∧
    (∀ p q : Position, p.IsValid x.bounds = true → q.IsValid x.bounds = true → p ≠ q →
      f.ast_.GetCells = [p, q] → f.GetReferencedCells x = [p, q]) := by
  refine ⟨unique_eq_collapseRuns _, (unique_sublist _).trans (List.filter_sublist _),
    unique_chain _, fun p hp hraw => ?_, fun p q hp hq hpq hraw => ?_⟩
  · simp [Formula.GetReferencedCells, hraw, hp, unique, uniqueAux]
  · simp [Formula.GetReferencedCells, hraw, hp, hq, unique, uniqueAux, hpq]

theorem GetReferencedCells_eq_collapseRuns_witness :
    (refFormula posA [posA, posA]).GetReferencedCells sampleExternals = [posA] ∧
    (refFormula posA [posA, posB]).GetReferencedCells sampleExternals = [posA, posB] :=
  ⟨(GetReferencedCells_eq_collapseRuns sampleExternals (refFormula posA [posA, posA])).2.2.2.1
      posA (by decide) rfl,
   (GetReferencedCells_eq_collapseRuns sampleExternals (refFormula posA [posA, posB])).2.2.2.2
      posA posB (by decide) (by decide) (by decide) rfl⟩

/-! ## Faults, absent positions and repeated Clear -/

/-- C12: for every position p that fails the validity predicate and every grid, `SetCell`,
`GetCell` and `ClearCell` at p each raise the out-of-bounds fault, and the grid held after
the failed call is the grid as it was: `GetCell` at every position and `GetPrintableSize`
give the same results as before. -/
theorem invalid_position_faults (x : Externals) (s : Sheet) (p : Position) (text : String)
    (h : p.IsValid x.bounds = false) :
    s.SetCell x p text = .error Fault.invalidPosition ∧
    s.GetCell x p = .error Fault.invalidPosition ∧
    s.ClearCell x p = .error Fault.invalidPosition ∧
    (∃ s1 : Sheet, gridAfter s (s.SetCell x p text) = some s1 ∧ s1 = s ∧
      (∀ q, s1.GetCell x q = s.GetCell x q) ∧
      s1.GetPrintableSize = s.GetPrintableSize) ∧
    (∃ s1 : Sheet, gridAfter s (s.ClearCell x p) = some s1 ∧ s1 = s ∧
      (∀ q, s1.GetCell x q = s.GetCell x q) ∧
      s1.GetPrintableSize = s.GetPrintableSize) := by
  have hset : s.SetCell x p text = .error Fault.invalidPosition := by
    simp [Sheet.SetCell, h]
  have hclr : s.ClearCell x p = .error Fault.invalidPosition := by
    simp [Sheet.ClearCell, h]
  refine ⟨hset, ?_, hclr, ⟨s, ?_, rfl, fun _ => rfl, rfl⟩, ⟨s, ?_, rfl, fun _ => rfl, rfl⟩⟩
  · simp [Sheet.GetCell, Sheet.GetCellPtr, h]
  · rw [hset]; rfl
  · rw [hclr]; rfl

theorem invalid_position_faults_witness :
    posOutside.IsValid sampleExternals.bounds = false ∧
    sampleGrid.SetCell sampleExternals posOutside "x" = .error Fault.invalidPosition ∧
    sampleGrid.GetCell sampleExternals posOutside = .error Fault.invalidPosition ∧
    sampleGrid.ClearCell sampleExternals posOutside = .error Fault.invalidPosition :=
  ⟨by decide,
    (invalid_position_faults sampleExternals sampleGrid posOutside "x" (by decide)).1,
    (invalid_position_faults sampleExternals sampleGrid posOutside "x" (by decide)).2.1,
    (invalid_position_faults sampleExternals sampleGrid posOutside "x" (by decide)).2.2.1⟩

theorem gridAfter_eq_some (s s1 : Sheet) (r : Except Fault Sheet)
    (h : gridAfter s r = some s1) : r = .ok s1 ∨ s1 = s := by
  unfold gridAfter at h
  cases r with
  | ok s2 =>
    simp only [Option.some.injEq] at h
    exact Or.inl (by rw [h])
  | error e =>
    cases e with
    | invalidPosition =>
      simp only [Option.some.injEq] at h
      exact Or.inr h.symm
    | formulaError e1 => simp at h
    | formulaException m => simp at h
    | outOfRange => simp at h
    | nullDereference => simp at h

theorem applyCall_keys (x : Externals) (s s1 : Sheet) (p : Position) (c : Call)
    (hc : c.writesAt p = false) (hp : p ∉ s.cells_.map Prod.fst)
    (hs1 : applyCall x s c = some s1) : p ∉ s1.cells_.map Prod.fst := by
  cases c with
  | write pos text =>
    have hne : pos ≠ p := by simpa [Call.writesAt] using hc
    simp only [applyCall] at hs1
    rcases gridAfter_eq_some s s1 _ hs1 with hset | heq
    · obtain ⟨_, hcase⟩ := SetCell_ok x s s1 pos text hset
      rcases hcase with ⟨_, hcells⟩ | ⟨c0, _, hcells⟩
      · rw [hcells]
        simp only [List.map_cons, List.mem_cons, not_or]
        exact ⟨fun hpp => hne hpp.symm, hp⟩
      · rw [hcells, storeEntry_keys]
        exact hp
    · rw [heq]; exact hp
  | read pos =>
    simp only [applyCall, Option.some.injEq] at hs1
    rw [← hs1]; exact hp
  | clear pos =>
    simp only [applyCall] at hs1
    rcases gridAfter_eq_some s s1 _ hs1 with hclr | heq
    · obtain ⟨_, hcase⟩ := ClearCell_ok x s s1 pos hclr
      rcases hcase with ⟨hsame, _⟩ | ⟨c0, _, hcase⟩
      · rw [hsame]; exact hp
      · rcases hcase with ⟨_, hcells⟩ | ⟨_, hcells⟩ <;>
          (rw [hcells, storeEntry_keys]; exact hp)
    · rw [heq]; exact hp
  | tracker g =>
    simp only [applyCall, Option.some.injEq] at hs1
    rw [← hs1, retrack_keys]
    exact hp

theorem runCalls_keys (x : Externals) (p : Position) (calls : List Call) :
    ∀ s send : Sheet, (∀ c ∈ calls, c.writesAt p = false) → p ∉ s.cells_.map Prod.fst →
      runCalls x s calls = some send → p ∉ send.cells_.map Prod.fst := by
  induction calls with
  | nil =>
    intro s send _ hp hrun
    simp only [runCalls, Option.some.injEq] at hrun
    rw [← hrun]; exact hp
  | cons c rest ih =>
    intro s send hno hp hrun
    simp only [runCalls] at hrun
    cases hc : applyCall x s c with
    | none => rw [hc] at hrun; simp at hrun
    | some s1 =>
      rw [hc] at hrun
      exact ih s1 send (fun c1 hc1 => hno c1 (List.mem_cons_of_mem _ hc1))
        (applyCall_keys x s s1 p c (hno c (List.mem_cons_self _ _)) hp hc) hrun

/-- A run that writes a released slot does not reach its end: the third call goes through
the null pointer left by the second. -/
theorem runCalls_null_dereference :
    runCalls sampleExternals Sheet.empty
      [Call.write posB "x", Call.clear posB, Call.write posB "y", Call.read posA] = none :=
  rfl

theorem ClearCell_returns_or_throws (x : Externals) (s : Sheet) (pos : Position) :
    (∃ s1, s.ClearCell x pos = .ok s1) ∨ s.ClearCell x pos = .error Fault.invalidPosition := by
  unfold Sheet.ClearCell
  by_cases hv : pos.IsValid x.bounds = true
  · left
    simp only [hv, Bool.not_true, Bool.false_eq_true, if_false]
    cases findEntry pos s.cells_ with
    | none => exact ⟨s, rfl⟩
    | some ptr =>
      cases ptr with
      | none => exact ⟨s, rfl⟩
      | some c =>
        simp only
        split
        · exact ⟨_, rfl⟩
        · exact ⟨_, rfl⟩
  · right
    simp only [Bool.not_eq_true] at hv
    simp [hv]

/-- C13: for every valid position p and every sequence of Write, Read and Clear calls
(with the tracker acting in between) applied to the empty grid in which no Write targets p
and each call returns or throws an exception, `GetCell` at p returns absence at the end;
and on every grid where `GetCell` at p returns absence, any Read and any Clear call leaves
a grid on which it still does. -/
theorem never_written_is_absent (x : Externals) (p : Position) (calls : List Call)
    (h : p.IsValid x.bounds = true) (hno : ∀ c ∈ calls, c.writesAt p = false) :
    (∀ send : Sheet, runCalls x Sheet.empty calls = some send →
      send.GetCell x p = .ok none) ∧
    (∀ (s : Sheet) (q : Position), s.GetCell x p = .ok none →
      (∃ s1 : Sheet, applyCall x s (Call.read q) = some s1 ∧ s1.GetCell x p = .ok none) ∧
      (∃ s1 : Sheet, applyCall x s (Call.clear q) = some s1 ∧
        s1.GetCell x p = .ok none)) := by
  constructor
  · intro send hrun
    have hk := runCalls_keys x p calls Sheet.empty send hno (by simp [Sheet.empty]) hrun
    rw [← findEntry_eq_none_iff] at hk
    rw [getCell_of_valid x _ p h, hk]
    rfl
  · intro s q hs
    refine ⟨⟨s, rfl, hs⟩, ?_⟩
    simp only [applyCall]
    rcases ClearCell_returns_or_throws x s q with ⟨s1, hclr⟩ | hthrow
    · refine ⟨s1, by rw [hclr]; rfl, ?_⟩
      obtain ⟨_, hcase⟩ := ClearCell_ok x s s1 q hclr
      rcases hcase with ⟨hs1, _⟩ | ⟨c0, hc0, hcase⟩
      · rw [hs1]; exact hs
      · have hqp : p ≠ q := by
          rintro rfl
          exact (getCell_eq_none_iff x s p h).1 hs c0 hc0
        rw [getCell_eq_none_iff x s p h] at hs
        rw [getCell_eq_none_iff x s1 p h]
        intro c1
        rcases hcase with ⟨_, hs1⟩ | ⟨_, hs1⟩ <;>
          (rw [hs1, findEntry_storeEntry_ne q p _ _ hqp]; exact hs c1)
    · exact ⟨s, by rw [hthrow]; rfl, hs⟩

theorem never_written_is_absent_witness :
    ∃ send : Sheet,
      runCalls sampleExternals Sheet.empty
        [Call.write posB "x", Call.read posA, Call.clear posA, Call.clear posB,
          Call.write posOutside "y", Call.write ⟨1, 1⟩ "z"] = some send ∧
      send.GetCell sampleExternals posA = .ok none :=
  ⟨⟨[(⟨1, 1⟩, some ⟨"z", Value.text "z", false⟩), (posB, none)]⟩, rfl,
    (never_written_is_absent sampleExternals posA
      [Call.write posB "x", Call.read posA, Call.clear posA, Call.clear posB,
        Call.write posOutside "y", Call.write ⟨1, 1⟩ "z"] (by decide) (by decide)).1 _ rfl⟩

theorem storeEntry_storeEntry (pos : Position) (ptr ptr1 : Option Cell)
    (l : List (Position × Option Cell)) :
    storeEntry pos ptr (storeEntry pos ptr1 l) = storeEntry pos ptr l := by
  induction l with
  | nil => rfl
  | cons e rest ih =>
    by_cases h : e.1 = pos
    · simp [storeEntry, h]
    · simp [storeEntry, h, ih]

theorem Cell_Clear_Clear (x : Externals) (c : Cell) : (c.Clear x).Clear x = c.Clear x := rfl

/-- C20: for every grid and every valid position p, `ClearCell` at p returns; when
`GetCell` reports absence at p the returned grid is the grid as it was, so every `GetCell`
result and `GetPrintableSize` are unchanged; and a second `ClearCell` at p returns the
very grid the first one returned. -/
theorem ClearCell_idempotent (x : Externals) (s : Sheet) (p : Position)
    (h : p.IsValid x.bounds = true) :
    ∃ s1 : Sheet, s.ClearCell x p = .ok s1 ∧
      (s.GetCell x p = .ok none →
        s1 = s ∧ (∀ q, s1.GetCell x q = s.GetCell x q) ∧
        s1.GetPrintableSize = s.GetPrintableSize) ∧
      s1.ClearCell x p = .ok s1 := by
  cases hf : findEntry p s.cells_ with
  | none =>
    have hclr : s.ClearCell x p = .ok s := by simp [Sheet.ClearCell, h, hf]
    exact ⟨s, hclr, fun _ => ⟨rfl, fun _ => rfl, rfl⟩, hclr⟩
  | some ptr =>
    cases ptr with
    | none =>
      have hclr : s.ClearCell x p = .ok s := by simp [Sheet.ClearCell, h, hf]
      exact ⟨s, hclr, fun _ => ⟨rfl, fun _ => rfl, rfl⟩, hclr⟩
    | some c =>
      have habs : s.GetCell x p ≠ .ok none := by
        intro hn
        exact (getCell_eq_none_iff x s p h).1 hn c hf
      by_cases hr : (c.Clear x).IsReferenced = true
      · refine ⟨⟨storeEntry p (some (c.Clear x)) s.cells_⟩, ?_, fun hn => absurd hn habs, ?_⟩
        · simp [Sheet.ClearCell, h, hf, hr]
        · have hf1 : findEntry p (storeEntry p (some (c.Clear x)) s.cells_)
              = some (some (c.Clear x)) := by
            rw [findEntry_storeEntry_same, hf]; rfl
          simp [Sheet.ClearCell, h, hf1, Cell_Clear_Clear, hr, storeEntry_storeEntry]
      · simp only [Bool.not_eq_true] at hr
        refine ⟨⟨storeEntry p none s.cells_⟩, ?_, fun hn => absurd hn habs, ?_⟩
        · simp [Sheet.ClearCell, h, hf, hr]
        · have hf1 : findEntry p (storeEntry p none s.cells_) = some none := by
            rw [findEntry_storeEntry_same, hf]; rfl
          simp [Sheet.ClearCell, h, hf1]

theorem ClearCell_idempotent_witness :
    ∃ s1 : Sheet, sampleGrid.ClearCell sampleExternals ⟨1, 3⟩ = .ok s1 ∧
      (sampleGrid.GetCell sampleExternals ⟨1, 3⟩ = .ok none →
        s1 = sampleGrid ∧
        (∀ q, s1.GetCell sampleExternals q = sampleGrid.GetCell sampleExternals q) ∧
        s1.GetPrintableSize = sampleGrid.GetPrintableSize) ∧
      s1.ClearCell sampleExternals ⟨1, 3⟩ = .ok s1 :=
  ClearCell_idempotent sampleExternals sampleGrid ⟨1, 3⟩ (by decide)

/-! ## Lemmas on rendering -/

theorem printCell_eq (emit : Cell → String) (s : Sheet) (row col : Nat) :
    printCell emit s row col
      = (if col > 0 then "\t" else "") ++ fieldAt emit s row col := by
  unfold printCell fieldAt
  cases findEntry ⟨(row : Int), (col : Int)⟩ s.cells_ with
  | none => rfl
  | some ptr =>
    cases ptr with
    | none => rfl
    | some c =>
      simp only
      by_cases h : c.GetText = ""
      · have h1 : c.GetText.isEmpty = true := (String.isEmpty_iff _).2 h
        rw [h1]
        simp [h]
      · have h1 : c.GetText.isEmpty = false := by
          rw [← Bool.not_eq_true, String.isEmpty_iff]; exact h
        rw [h1]
        simp [h]

theorem joinFields_snoc (l : List String) (f : String) (hl : l ≠ []) :
    joinFields (l ++ [f]) = joinFields l ++ "\t" ++ f := by
  induction l with
  | nil => exact absurd rfl hl
  | cons a rest ih =>
    cases rest with
    | nil => rfl
    | cons b rest1 =>
      have h := ih (by simp)
      rw [List.cons_append] at h
      have e : joinFields (a :: b :: (rest1 ++ [f]))
          = a ++ "\t" ++ joinFields (b :: (rest1 ++ [f])) := rfl
      have e1 : joinFields (a :: b :: rest1) = a ++ "\t" ++ joinFields (b :: rest1) := rfl
      rw [List.cons_append, List.cons_append, e, e1, h]
      simp only [String.append_assoc]

theorem joinLines_snoc (t : List (List String)) (line : List String) :
    joinLines (t ++ [line]) = joinLines t ++ (joinFields line ++ "\n") := by
  induction t with
  | nil => simp [joinLines]
  | cons a rest ih =>
    have e : joinLines (a :: (rest ++ [line]))
        = joinFields a ++ "\n" ++ joinLines (rest ++ [line]) := rfl
    have e1 : joinLines (a :: rest) = joinFields a ++ "\n" ++ joinLines rest := rfl
    rw [List.cons_append, e, e1, ih]
    simp only [String.append_assoc]

theorem printRow_eq (emit : Cell → String) (s : Sheet) (cols row : Nat) :
    printRow emit s cols row
      = joinFields ((List.range cols).map (fun col => fieldAt emit s row col)) ++ "\n" := by
  unfold printRow
  congr 1
  induction cols with
  | zero => rfl
  | succ n ih =>
    rw [List.range_succ, List.foldl_append, List.map_append, ih]
    simp only [List.foldl_cons, List.foldl_nil, List.map_cons, List.map_nil]
    rw [printCell_eq]
    cases n with
    | zero => simp [joinFields]
    | succ m =>
      rw [joinFields_snoc _ _ (by simp [List.range_succ])]
      simp [String.append_assoc]

theorem printGrid_eq (emit : Cell → String) (s : Sheet) :
    printGrid emit s = joinLines (fieldTable emit s) := by
  unfold printGrid fieldTable
  simp only
  generalize s.GetPrintableSize.rows.toNat = rows
  induction rows with
  | zero => rfl
  | succ n ih =>
    rw [List.range_succ, List.foldl_append, List.map_append, ih]
    simp only [List.foldl_cons, List.foldl_nil, List.map_cons, List.map_nil]
    rw [joinLines_snoc, printRow_eq]

theorem fieldTable_shape (emit : Cell → String) (s : Sheet) :
    (fieldTable emit s).length = s.GetPrintableSize.rows.toNat ∧
    ∀ line ∈ fieldTable emit s, line.length = s.GetPrintableSize.cols.toNat := by
  unfold fieldTable
  refine ⟨by simp, fun line hl => ?_⟩
  simp only [List.mem_map] at hl
  obtain ⟨row, _, hrow⟩ := hl
  rw [← hrow]
  simp

theorem joinFields_counts (l : List String)
    (h : ∀ f ∈ l, tabChar ∉ f.data ∧ newlineChar ∉ f.data) :
    newlineChar ∉ (joinFields l).data ∧
    (joinFields l).data.count tabChar = l.length - 1 := by
  induction l with
  | nil => exact ⟨by simp [joinFields], rfl⟩
  | cons a rest ih =>
    cases rest with
    | nil =>
      have ha := h a (List.mem_cons_self _ _)
      exact ⟨ha.2, by simpa [joinFields] using List.count_eq_zero_of_not_mem ha.1⟩
    | cons b rest1 =>
      have ha := h a (List.mem_cons_self _ _)
      obtain ⟨ih1, ih2⟩ := ih (fun f hf => h f (List.mem_cons_of_mem _ hf))
      have htab : "\t".data = [tabChar] := rfl
      have hne : newlineChar ≠ tabChar := by decide
      have e : joinFields (a :: b :: rest1) = a ++ "\t" ++ joinFields (b :: rest1) := rfl
      rw [e, String.data_append, String.data_append, htab]
      refine ⟨?_, ?_⟩
      · simp only [List.mem_append, List.mem_singleton, not_or]
        exact ⟨⟨ha.2, hne⟩, ih1⟩
      · rw [List.count_append, List.count_append, ih2, List.count_eq_zero_of_not_mem ha.1,
          List.count_singleton_self]
        simp only [List.length_cons]
        omega

theorem joinLines_count (t : List (List String))
    (h : ∀ line ∈ t, newlineChar ∉ (joinFields line).data) :
    (joinLines t).data.count newlineChar = t.length := by
  induction t with
  | nil => rfl
  | cons a rest ih =>
    have hnl : "\n".data = [newlineChar] := rfl
    have e : joinLines (a :: rest) = joinFields a ++ "\n" ++ joinLines rest := rfl
    rw [e, String.data_append, String.data_append, hnl, List.count_append, List.count_append,
      ih (fun line hl => h line (List.mem_cons_of_mem _ hl)),
      List.count_eq_zero_of_not_mem (h a (List.mem_cons_self _ _)),
      List.count_singleton_self, List.length_cons]
    omega

/-- On a well-formed grid a box with a row has a column, and every position inside the box
is valid. -/
theorem box_valid (x : Externals) (s : Sheet) (hwf : s.WF x) (row col : Nat)
    (hrow : row < s.GetPrintableSize.rows.toNat) :
    0 < s.GetPrintableSize.cols.toNat ∧
    (col < s.GetPrintableSize.cols.toNat →
      (⟨(row : Int), (col : Int)⟩ : Position).IsValid x.bounds = true) := by
  have hsize : s.GetPrintableSize = s.cells_.foldl sizeStep ⟨0, 0⟩ := rfl
  obtain ⟨hatr, hatc⟩ := foldl_sizeStep_attained s.cells_ ⟨0, 0⟩
  rw [← hsize] at hatr hatc
  have hkey : ∀ p c, (p, some c) ∈ s.cells_ → p.IsValid x.bounds = true :=
    fun p c hm => hwf.2 p (List.mem_map_of_mem Prod.fst hm)
  rcases hatr with hr | ⟨p1, c1, hm1, hr⟩
  · rw [hr] at hrow
    simp at hrow
  · have hle := (foldl_sizeStep_live_le s.cells_ ⟨0, 0⟩ p1 c1 hm1).2
    rw [← hsize] at hle
    have hv1 := hkey p1 c1 hm1
    have hnn1 := isValid_nonneg x.bounds p1 hv1
    refine ⟨by omega, fun hcol => ?_⟩
    rcases hatc with hc | ⟨p2, c2, hm2, hc⟩
    · rw [hc] at hcol
      simp at hcol
    · have hv2 := hkey p2 c2 hm2
      unfold Position.IsValid at hv1 hv2 ⊢
      simp only [Bool.and_eq_true, decide_eq_true_eq] at hv1 hv2 ⊢
      refine ⟨⟨⟨by omega, by omega⟩, ?_⟩, ?_⟩ <;> omega

theorem size_nonneg (s : Sheet) :
    0 ≤ s.GetPrintableSize.rows ∧ 0 ≤ s.GetPrintableSize.cols :=
  foldl_sizeStep_ge s.cells_ ⟨0, 0⟩

theorem printGrid_table (emit : Cell → String) (s : Sheet) :
    IsTableOutput s.GetPrintableSize.rows.toNat s.GetPrintableSize.cols.toNat
      (fieldTable emit s) (printGrid emit s) :=
  ⟨(fieldTable_shape emit s).1, (fieldTable_shape emit s).2, printGrid_eq emit s⟩

theorem printGrid_counts (x : Externals) (emit : Cell → String) (s : Sheet) (hwf : s.WF x)
    (hplain : PlainFields (fieldTable emit s)) :
    CountsMatch s.GetPrintableSize.rows.toNat s.GetPrintableSize.cols.toNat
      (fieldTable emit s) (printGrid emit s) := by
  have hline : ∀ line ∈ fieldTable emit s, newlineChar ∉ (joinFields line).data ∧
      (joinFields line).data.count tabChar + 1 = s.GetPrintableSize.cols.toNat := by
    intro line hl
    obtain ⟨h1, h2⟩ := joinFields_counts line (hplain line hl)
    refine ⟨h1, ?_⟩
    have hlen := (fieldTable_shape emit s).2 line hl
    have hrows : 0 < s.GetPrintableSize.rows.toNat := by
      rw [← (fieldTable_shape emit s).1]
      exact List.length_pos_of_mem hl
    have hcols := (box_valid x s hwf 0 0 hrows).1
    rw [h2, hlen]
    omega
  refine ⟨?_, hline⟩
  rw [printGrid_eq, joinLines_count _ (fun line hl => (hline line hl).1)]
  exact (fieldTable_shape emit s).1

/-! ## Rendering -/

/-- C11 (counterexample): after writing at row 0, column 0 of the empty grid a text that
holds a tab and a newline, the printable size is (1, 1), and the output of `PrintTexts`
and of `PrintValues` has two newline characters and one tab character, not one newline
and no tab. -/
theorem Print_raw_text_breaks_counts :
    ∃ s : Sheet,
      Sheet.empty.SetCell sampleExternals posA "a\tb\nc" = .ok s ∧
      s.GetPrintableSize = ⟨1, 1⟩ ∧
      s.PrintTexts = "a\tb\nc\n" ∧
      s.PrintValues sampleExternals = "a\tb\nc\n" ∧
      s.PrintTexts.data.count newlineChar = 2 ∧
      s.PrintTexts.data.count tabChar = 1 :=
  ⟨sheetWithText "a\tb\nc", rfl, by decide, by decide, by decide, by decide, by decide⟩

/-- C11 (amended): for every well-formed grid, the output of `PrintTexts` and of
`PrintValues` is a table written line by line, of exactly rows lines, each made of exactly
cols fields separated by tabs and ended by a newline, where (rows, cols) is
`GetPrintableSize`; and when no field of the table contains a tab or a newline, the output
contains exactly rows newline characters and each line exactly cols - 1 tab characters. -/
theorem Print_table_shape (x : Externals) (s : Sheet) (hwf : s.WF x) :
    ((s.GetPrintableSize.rows.toNat : Int) = s.GetPrintableSize.rows ∧
      (s.GetPrintableSize.cols.toNat : Int) = s.GetPrintableSize.cols) ∧
    IsTableOutput s.GetPrintableSize.rows.toNat s.GetPrintableSize.cols.toNat
      (fieldTable (fun c => c.GetText) s) s.PrintTexts ∧
    IsTableOutput s.GetPrintableSize.rows.toNat s.GetPrintableSize.cols.toNat
      (fieldTable (fun c => putValue x c.GetValue) s) (s.PrintValues x) ∧
    (PlainFields (fieldTable (fun c => c.GetText) s) →
      CountsMatch s.GetPrintableSize.rows.toNat s.GetPrintableSize.cols.toNat
        (fieldTable (fun c => c.GetText) s) s.PrintTexts) ∧
    (PlainFields (fieldTable (fun c => putValue x c.GetValue) s) →
      CountsMatch s.GetPrintableSize.rows.toNat s.GetPrintableSize.cols.toNat
        (fieldTable (fun c => putValue x c.GetValue) s) (s.PrintValues x)) :=
  ⟨⟨Int.toNat_of_nonneg (size_nonneg s).1, Int.toNat_of_nonneg (size_nonneg s).2⟩,
    printGrid_table _ s, printGrid_table _ s,
    fun hplain => printGrid_counts x _ s hwf hplain,
    fun hplain => printGrid_counts x _ s hwf hplain⟩

theorem Print_table_shape_witness :
    sampleGrid.WF sampleExternals ∧
    PlainFields (fieldTable (fun c => c.GetText) sampleGrid) ∧
    CountsMatch 2 4 (fieldTable (fun c => c.GetText) sampleGrid) sampleGrid.PrintTexts :=
  ⟨⟨by decide, by decide⟩, by unfold PlainFields; decide,
    (Print_table_shape sampleExternals sampleGrid ⟨by decide, by decide⟩).2.2.2.1
      (by unfold PlainFields; decide)⟩

/-- C16: for every well-formed grid, `PrintTexts` and `PrintValues` write the table of
fields row by row and, in a row, column by column; every position (r, c) inside the
`GetPrintableSize` box is valid, and its field is empty when `GetCell` reports no cell
there or the text of the cell is empty, whatever its value; otherwise it is what the
renderer emits for the cell, which for `PrintTexts` is the raw source text. -/
theorem Print_fields (x : Externals) (s : Sheet) (hwf : s.WF x) :
    s.PrintTexts = joinLines (fieldTable (fun c => c.GetText) s) ∧
    s.PrintValues x = joinLines (fieldTable (fun c => putValue x c.GetValue) s) ∧
    ∀ (emit : Cell → String) (row col : Nat),
      row < s.GetPrintableSize.rows.toNat → col < s.GetPrintableSize.cols.toNat →
      ((fieldTable emit s)[row]?).bind (fun fields => fields[col]?)
        = some (fieldAt emit s row col) ∧
      (⟨(row : Int), (col : Int)⟩ : Position).IsValid x.bounds = true ∧
      (s.GetCell x ⟨(row : Int), (col : Int)⟩ = .ok none → fieldAt emit s row col = "") ∧
      (∀ cell : Cell, s.GetCell x ⟨(row : Int), (col : Int)⟩ = .ok (some cell) →
        (cell.GetText = "" → fieldAt emit s row col = "") ∧
        (cell.GetText ≠ "" → fieldAt emit s row col = emit cell)) := by
  refine ⟨printGrid_eq _ s, printGrid_eq _ s, fun emit row col hrow hcol => ?_⟩
  have hv := (box_valid x s hwf row col hrow).2 hcol
  refine ⟨?_, hv, fun hnone => ?_, fun cell hcell => ?_⟩
  · simp [fieldTable, List.getElem?_map, List.getElem?_range hrow, List.getElem?_range hcol]
  · rw [getCell_eq_none_iff x s _ hv] at hnone
    unfold fieldAt
    cases hf : findEntry ⟨(row : Int), (col : Int)⟩ s.cells_ with
    | none => rfl
    | some ptr =>
      cases ptr with
      | none => rfl
      | some c => exact absurd hf (hnone c)
  · rw [getCell_eq_some_iff x s _ cell hv] at hcell
    unfold fieldAt
    rw [hcell]
    exact ⟨fun ht => by simp [ht], fun ht => by simp [ht]⟩

theorem Print_fields_witness :
    sampleGrid.PrintTexts = "\t\t\t\n\t\t\t7\n" ∧
    fieldAt (fun c => c.GetText) sampleGrid 0 0 = "" ∧
    fieldAt (fun c => c.GetText) sampleGrid 1 3 = "7" :=
  ⟨by decide,
    ((Print_fields sampleExternals sampleGrid ⟨by decide, by decide⟩).2.2
      (fun c => c.GetText) 0 0 (by decide) (by decide)).2.2.2
      ⟨"", Value.text "", true⟩ rfl |>.1 rfl,
    ((Print_fields sampleExternals sampleGrid ⟨by decide, by decide⟩).2.2
      (fun c => c.GetText) 1 3 (by decide) (by decide)).2.2.2
      ⟨"7", Value.text "7", false⟩ rfl |>.2 (by decide)⟩

end Spreadsheet
